import Mathlib

/-!
Verification development for the asset-resolution and download pipeline of a
desktop label-printing application.  The definitions below are a shallow
embedding of the TypeScript source: `extractFileId`, `downloadFile`,
`downloadDriveFile`, `downloadDriveImage`, `downloadWithDirectMethods`,
`directDownload`, `downloadAsset` (google-drive / notion-sync modules),
`createPdfPreview` (both copies of pdf-utils), and the record-processing loop
of `syncWithNotion`.  File-system state is a map from paths to sizes, network
traffic is a trace of oracle responses consumed in order, and child-process
effects (the native Drive helper and the PDF converters) are a separate trace.
-/

set_option autoImplicit false

namespace HelloStickers

/-! ## Character-list helpers (JS string operations) -/

/-- Boolean test that `s` occurs at the head of `l` (JS `startsWith` on the
remaining text, used to implement `includes` and the regex matchers). -/
def leadsWith : List Char → List Char → Bool
  | [], _ => true
  | _ :: _, [] => false
  | a :: s, b :: t => a = b && leadsWith s t

/-- JS `String.prototype.includes`: `needle` occurs somewhere in `hay`. -/
def occursIn (needle : List Char) : List Char → Bool
  | [] => leadsWith needle []
  | c :: t => leadsWith needle (c :: t) || occursIn needle t

/-- String-level wrapper for `occursIn`. -/
def containsS (hay needle : String) : Bool := occursIn needle.toList hay.toList

/-- Lower-case every character (JS `toLowerCase`, ASCII being what matters here). -/
def lowerL (l : List Char) : List Char := l.map Char.toLower

/-- Split at every occurrence of the character `c` (JS `String.split`). -/
def splitOnChar (c : Char) : List Char → List (List Char)
  | [] => [[]]
  | x :: t =>
    if x = c then [] :: splitOnChar c t
    else
      match splitOnChar c t with
      | [] => [[x]]
      | h :: r => (x :: h) :: r

/-- Split at the first occurrence of the separator `sep`, if any. -/
def splitOnceAt (sep : List Char) : List Char → Option (List Char × List Char)
  | [] => none
  | x :: t =>
    if leadsWith sep (x :: t) then some ([], (x :: t).drop sep.length)
    else
      match splitOnceAt sep t with
      | some (a, b) => some (x :: a, b)
      | none => none

/-- Characters admitted by the Drive-ID character class `[a-zA-Z0-9_-]`. -/
def idChar (c : Char) : Bool :=
  (('a' ≤ c && c ≤ 'z') || ('A' ≤ c && c ≤ 'Z') || ('0' ≤ c && c ≤ '9')
    || c = '_' || c = '-')

/-- Greedy capture of `[a-zA-Z0-9_-]+` starting at the head. -/
def takeIdRun (l : List Char) : List Char := l.takeWhile idChar

/-- Regex matcher for `lit` followed by at least `k` ID characters: scan for the
first position where the literal occurs and a sufficiently long ID run follows,
returning the (greedy) captured run. -/
def findLitThenRun (lit : List Char) (k : Nat) : List Char → Option (List Char)
  | [] => none
  | x :: t =>
    if leadsWith lit (x :: t) then
      let run := takeIdRun ((x :: t).drop lit.length)
      if k ≤ run.length then some run else findLitThenRun lit k t
    else findLitThenRun lit k t

/-- Matcher for the last-resort pattern `([a-zA-Z0-9_-]{28,})`: first position
followed by at least 28 ID characters, greedy capture. -/
def findLongRun (k : Nat) : List Char → Option (List Char)
  | [] => none
  | x :: t =>
    let run := takeIdRun (x :: t)
    if k ≤ run.length then some run else findLongRun k t

/-- Matcher for `id=([a-zA-Z0-9_-]+)` preceded by greedy `.*`: the rightmost
occurrence of `id=` that is followed by at least one ID character. -/
def lastIdAssign : List Char → Option (List Char)
  | [] => none
  | x :: t =>
    match lastIdAssign t with
    | some r => some r
    | none =>
      if leadsWith "id=".toList (x :: t) then
        let run := takeIdRun ((x :: t).drop 3)
        if run.isEmpty then none else some run
      else none

/-- Matcher for `drive\.google\.com\/uc\?.*id=([a-zA-Z0-9_-]+)`. -/
def ucPattern : List Char → Option (List Char)
  | [] => none
  | x :: t =>
    if leadsWith "drive.google.com/uc?".toList (x :: t) then
      match lastIdAssign ((x :: t).drop 20) with
      | some r => some r
      | none => ucPattern t
    else ucPattern t

/-- Alternation `(document|spreadsheets|presentation)\/d\/([a-zA-Z0-9_-]+)`
applied to the text directly after `docs.google.com/`. -/
def docsAfter (l : List Char) : Option (List Char) :=
  let tryWord (w : String) : Option (List Char) :=
    if leadsWith w.toList l then
      let rest := l.drop w.length
      if leadsWith "/d/".toList rest then
        let run := takeIdRun (rest.drop 3)
        if run.isEmpty then none else some run
      else none
    else none
  tryWord "document" <|> tryWord "spreadsheets" <|> tryWord "presentation"

/-- Matcher for `docs\.google\.com\/(document|spreadsheets|presentation)\/d\/([a-zA-Z0-9_-]+)`;
the file ID is capture group 2. -/
def docsPattern : List Char → Option (List Char)
  | [] => none
  | x :: t =>
    if leadsWith "docs.google.com/".toList (x :: t) then
      match docsAfter ((x :: t).drop 16) with
      | some r => some r
      | none => docsPattern t
    else docsPattern t

/-- Matcher for `[?&]id=([a-zA-Z0-9_-]+)`. -/
def findParamId : List Char → Option (List Char)
  | [] => none
  | x :: t =>
    if (x = '?' || x = '&') && leadsWith "id=".toList t then
      let run := takeIdRun (t.drop 3)
      if run.isEmpty then findParamId t else some run
    else findParamId t

/-! ## URL parsing (the `new URL(url)` branch of `extractFileId`) -/

/-- Parsed absolute URL: scheme, lower-cased host, pathname and query pairs. -/
structure ParsedUrl where
  scheme : List Char
  host : List Char
  pathname : List Char
  query : List (List Char × List Char)
  deriving DecidableEq

/-- Split the part after `scheme://` into host and the rest (starting at the
first `/` or `?`, whichever comes first). -/
def splitHostRest : List Char → List Char × List Char
  | [] => ([], [])
  | c :: t =>
    if c = '/' || c = '?' then ([], c :: t)
    else
      let (h, r) := splitHostRest t
      (c :: h, r)

/-- Parse a `k=v` query component (`k` alone parses as value `[]`). -/
def parseQueryPair (l : List Char) : List Char × List Char :=
  match splitOnceAt ['='] l with
  | some (k, v) => (k, v)
  | none => (l, [])

/-- Parse the query text after `?` into key/value pairs. -/
def parseQuery (l : List Char) : List (List Char × List Char) :=
  (splitOnChar '&' l).map parseQueryPair

/-- Parse an absolute URL, `none` when `new URL(url)` would throw.  Accepts
`scheme://host[/path][?query]` with a non-empty alphanumeric scheme and a
non-empty host, the shapes the pipeline ever receives. -/
def parseUrl (url : String) : Option ParsedUrl :=
  match splitOnceAt "://".toList url.toList with
  | none => none
  | some (sch, rest) =>
    if sch.isEmpty || !sch.all (fun c => c.isAlphanum || c = '+' || c = '.' || c = '-') then none
    else
      let (host, rest2) := splitHostRest rest
      if host.isEmpty then none
      else
        let (pathname, search) :=
          match rest2 with
          | '?' :: q => (['/'], q)
          | [] => (['/'], [])
          | r =>
            match splitOnceAt ['?'] r with
            | some (p, q) => (p, q)
            | none => (r, [])
        some { scheme := sch, host := lowerL host, pathname := pathname,
               query := if search.isEmpty then [] else parseQuery search }

/-- First value bound to key `k` in the query (JS `searchParams.get`). -/
def queryGet (q : List (List Char × List Char)) (k : List Char) : Option (List Char) :=
  match q.find? (fun p => p.1 = k) with
  | some p => some p.2
  | none => none

/-- Index of the first element equal to `x` (JS `Array.prototype.indexOf`). -/
def idxOfSeg (x : List Char) : List (List Char) → Option Nat
  | [] => none
  | h :: t => if h = x then some 0 else (idxOfSeg x t).map (· + 1)

/-- The `/file/d/` path-segment extraction: split the pathname on `/`, find the
segment `d`, and return the following segment when there is one. -/
def filePathSegmentId (pathname : List Char) : Option (List Char) :=
  let parts := splitOnChar '/' pathname
  match idxOfSeg ['d'] parts with
  | some i => if h : i + 1 < parts.length then some (parts.get ⟨i + 1, h⟩) else none
  | none => none

/-- The try-block of `extractFileId` built on `new URL`: the long `id` query
parameter, the `drive.google.com/open` form, and the `/file/d/` path form. -/
def urlBranch (url : String) : Option (List Char) :=
  match parseUrl url with
  | none => none
  | some u =>
    match queryGet u.query "id".toList with
    | some id =>
      if !id.isEmpty && 20 < id.length then some id else urlBranchRest u
    | none => urlBranchRest u
where
  /-- The `/open` and `/file/d/` checks that follow the query-parameter check. -/
  urlBranchRest (u : ParsedUrl) : Option (List Char) :=
    if u.host = "drive.google.com".toList && u.pathname = "/open".toList then
      match queryGet u.query "id".toList with
      | some id => if !id.isEmpty then some id else none
      | none => none
    else if u.host = "drive.google.com".toList && occursIn "/file/d/".toList u.pathname then
      filePathSegmentId u.pathname
    else none

/-- The ordered regex patterns tried after the URL-object branch. -/
def regexChain (cs : List Char) : Option (List Char) :=
  findLitThenRun "drive.google.com/file/d/".toList 1 cs
    <|> findLitThenRun "drive.google.com/open?id=".toList 1 cs
    <|> docsPattern cs
    <|> ucPattern cs
    <|> findLitThenRun "drive.google.com/drive/folders/".toList 1 cs
    <|> findParamId cs
    <|> findLitThenRun "/d/".toList 25 cs
    <|> findLitThenRun "/file/d/".toList 25 cs
    <|> findLongRun 28 cs

/-- Embedding of `extractFileId` (google-drive module): URL-object checks first,
then the regex patterns in order, then the 28-character last resort. -/
def extractFileId (url : String) : Option String :=
  if url.isEmpty then none
  else
    match urlBranch url with
    | some id => some (String.mk id)
    | none =>
      match regexChain url.toList with
      | some r => some (String.mk r)
      | none => none

/-- JS truthiness of a `string | null` value: non-null and non-empty. -/
def jsTruthy : Option String → Bool
  | some s => !s.isEmpty
  | none => false

/-! ## Payloads and the HTML-signature checks -/

/-- Raw bytes of a fetched response, as characters (`Buffer` contents). -/
abbrev Payload := List Char

/-- The first ~100 bytes of a payload, lower-cased
(`data.slice(0, 100).toString().toLowerCase()`). -/
def first100 (p : Payload) : List Char := lowerL (p.take 100)

/-- The check used by Method 1 of `downloadWithDirectMethods`: the first 100
bytes contain `<!doctype html>` (and nothing else is checked there). -/
def hasDoctype100 (p : Payload) : Bool := occursIn "<!doctype html>".toList (first100 p)

/-- The check used by `downloadDriveImage` and `directDownload`: the first 100
bytes contain `<!doctype html>` or `<html`. -/
def htmlAny100 (p : Payload) : Bool :=
  hasDoctype100 p || occursIn "<html".toList (first100 p)

/-- The `validImage` check of `downloadDriveImage`: no `<?xml` and no
`<!doctype` in the first 100 bytes. -/
def validImage100 (p : Payload) : Bool :=
  !occursIn "<?xml".toList (first100 p) && !occursIn "<!doctype".toList (first100 p)

/-! ## World state: the file store, the network trace and the process trace -/

/-- One HTTP request as issued by an axios / https call site: the URL and the
timeout option it was configured with (`none` when the call site sets no
timeout at all). -/
structure NetRequest where
  url : String
  timeoutMs : Option Nat
  deriving DecidableEq

/-- Outcome of one child-process invocation (the native Drive helper script or
a PDF converter command): it threw, it completed without producing the output
file, or it produced an output file of `n` bytes. -/
inductive ExecEff where
  | threw
  | ranNoWrite
  | wrote (n : Nat)
  deriving DecidableEq

/-- The world a pipeline run executes in: file sizes by path, the pending
network responses consumed in order (`none` = the request errors / times out /
returns non-2xx, `some p` = it resolves with payload `p`), the pending
child-process outcomes, the log of HTTP requests issued so far, and the clock
and random draw used for generated file names. -/
structure World where
  fs : String → Option Nat
  net : List (Option Payload)
  ext : List ExecEff
  log : List NetRequest
  now : Nat
  rand : Nat

/-- The response the next network call will receive (an exhausted trace keeps
erroring). -/
def netResp (w : World) : Option Payload := w.net.headD none

/-- Issue the request `r`: consume the head response and log the request. -/
def netNext (r : NetRequest) (w : World) : World :=
  { w with net := w.net.tail, log := w.log ++ [r] }

/-- The outcome of the next child-process invocation. -/
def extResp (w : World) : ExecEff := w.ext.headD .threw

/-- Consume the next child-process outcome. -/
def extNext (w : World) : World := { w with ext := w.ext.tail }

/-- Write a file of `n` bytes at `p` (`fs.writeFileSync`). -/
def writeF (w : World) (p : String) (n : Nat) : World :=
  { w with fs := fun q => if q = p then some n else w.fs q }

/-- Delete the file at `p` (`fs.unlinkSync`). -/
def eraseF (w : World) (p : String) : World :=
  { w with fs := fun q => if q = p then none else w.fs q }

/-- `fs.existsSync`. -/
def existsAt (w : World) (p : String) : Bool := (w.fs p).isSome

/-- `fs.statSync(p).size`, `0` when the file is absent. -/
def sizeAt (w : World) (p : String) : Nat := (w.fs p).getD 0

/-! ## Path helpers used by `downloadFile` / `downloadAsset` -/

/-- Suffix test on character lists. -/
def endsWithL (suf l : List Char) : Bool := leadsWith suf.reverse l.reverse

/-- The image test `filePath.match(/\.(jpe?g|png|gif|webp|bmp|svg)$/i) !== null`. -/
def isImagePath (p : String) : Bool :=
  let l := lowerL p.toList
  [".jpg", ".jpeg", ".png", ".gif", ".webp", ".bmp", ".svg"].any
    (fun e => endsWithL e.toList l)

/-- The final path component (`path.basename`). -/
def basenameL (l : List Char) : List Char := (l.reverse.takeWhile (· ≠ '/')).reverse

/-- String-level `path.basename`. -/
def basenameS (s : String) : String := String.mk (basenameL s.toList)

/-- `path.extname`: the suffix of the basename from its last dot, empty when
there is no dot or only a leading dot. -/
def extnameS (s : String) : String :=
  let b := basenameL s.toList
  let r := b.reverse
  let pre := r.takeWhile (· ≠ '.')
  if pre.length = r.length then ""
  else if b.length - pre.length - 1 = 0 then ""
  else String.mk ('.' :: pre.reverse)

/-- `filePath.replace(/\.[^/.]+$/, "")`: drop the final dot-extension when the
basename has one. -/
def stripLastExt (s : String) : String :=
  let r := s.toList.reverse
  let seg := r.takeWhile (fun c => c ≠ '.' && c ≠ '/')
  if seg.isEmpty then s
  else
    match r.drop seg.length with
    | '.' :: rest => String.mk rest.reverse
    | _ => s

/-! ## Request constructors, one per axios / https call site -/

/-- External configuration: whether a Notion API key and a Drive service
account are configured in settings. -/
structure Cfg where
  notionKey : Bool
  driveConfigured : Bool

/-- The plain GET of `downloadFile` for non-Drive URLs (timeout 30000). -/
def genericGetReq (url : String) : NetRequest := ⟨url, some 30000⟩

/-- The single GET of `directDownload` (timeout 30000). -/
def directReq (url : String) : NetRequest := ⟨url, some 30000⟩

/-- Method 1 of `downloadWithDirectMethods`: the direct export URL
(timeout 30000). -/
def method1Req (fid : String) : NetRequest :=
  ⟨"https://drive.google.com/uc?export=download&id=" ++ fid, some 30000⟩

/-- The cookie-harvesting GET of the Drive file view page, used by Method 2 and
by the cookie approach of `downloadDriveImage`.  This axios call sets no
timeout option. -/
def viewPageReq (fid : String) : NetRequest :=
  ⟨"https://drive.google.com/file/d/" ++ fid ++ "/view", none⟩

/-- Method 2's download with the harvested confirm token (timeout 60000). -/
def method2Req (fid : String) (tok : Option String) : NetRequest :=
  ⟨"https://drive.google.com/uc?export=download&id=" ++ fid ++ "&confirm="
      ++ tok.getD "t", some 60000⟩

/-- Method 3: the public Drive v3 media endpoint (timeout 60000). -/
def method3Req (fid : String) : NetRequest :=
  ⟨"https://www.googleapis.com/drive/v3/files/" ++ fid ++ "?alt=media", some 60000⟩

/-- One of the direct image URLs tried by `downloadDriveImage`
(timeout 30000). -/
def imageReq (u : String) : NetRequest := ⟨u, some 30000⟩

/-- The cookie-based image download of `downloadDriveImage` (timeout 30000). -/
def imageCookieReq (fid : String) : NetRequest :=
  ⟨"https://drive.google.com/uc?export=download&id=" ++ fid ++ "&confirm=t",
    some 30000⟩

/-- The alternative-extension attempt of `downloadDriveImage`
(timeout 30000). -/
def altExtReq (fid : String) : NetRequest :=
  ⟨"https://drive.google.com/uc?export=download&id=" ++ fid, some 30000⟩

/-- The authenticated fetch of `retrieveNotionFile` (timeout 30000). -/
def notionFileReq (url : String) : NetRequest := ⟨url, some 30000⟩

/-- The last-resort plain axios GET inside `downloadAsset` (timeout 30000). -/
def lastResortReq (url : String) : NetRequest := ⟨url, some 30000⟩

/-- The ordered list of direct image URLs tried by `downloadDriveImage`; the
last one carries a cache-busting timestamp. -/
def imageUrls (fid : String) (ts : Nat) : List String :=
  [ "https://drive.google.com/thumbnail?id=" ++ fid ++ "&sz=w2000"
  , "https://drive.google.com/thumbnail?id=" ++ fid ++ "&sz=w1000"
  , "https://lh3.googleusercontent.com/d/" ++ fid ++ "=w2000"
  , "https://lh3.googleusercontent.com/d/" ++ fid
  , "https://drive.google.com/uc?export=view&id=" ++ fid
  , "https://drive.google.com/uc?export=download&id=" ++ fid
  , "https://drive.google.com/uc?id=" ++ fid ++ "&export=download"
  , "https://drive.google.com/uc?export=download&id=" ++ fid ++ "&ts=" ++ toString ts ]

/-! ## The Drive strategy chain (`google-drive` module) -/

/-- Matcher for `/confirm=([0-9A-Za-z]+)/`: first occurrence, greedy capture. -/
def findConfirm : List Char → Option (List Char)
  | [] => none
  | x :: t =>
    if leadsWith "confirm=".toList (x :: t) then
      let run := ((x :: t).drop 8).takeWhile Char.isAlphanum
      if run.isEmpty then findConfirm t else some run
    else findConfirm t

/-- Method 2's confirm-token harvest from the view-page HTML: only pages
mentioning `export=download` are searched. -/
def extractConfirmTok (page : Payload) : Option String :=
  if occursIn "export=download".toList page then (findConfirm page).map String.mk
  else none

/-- Method 1 of `downloadWithDirectMethods`: direct export download.  Rejects
payloads whose first 100 bytes contain `<!doctype html>` (this method checks
nothing else), writes the payload, and succeeds only for a non-empty file. -/
def method1 (fid fp : String) (w : World) : Option String × World :=
  let w1 := netNext (method1Req fid) w
  match netResp w with
  | none => (none, w1)
  | some p =>
    if hasDoctype100 p then (none, w1)
    else
      let w2 := writeF w1 fp p.length
      if 0 < p.length then (some fp, w2) else (none, w2)

/-- Method 2 of `downloadWithDirectMethods`: harvest cookies and a confirm
token from the file view page, then download.  The downloaded payload is
written and checked only for non-zero size — this method performs no HTML
check at all. -/
def method2 (fid fp : String) (w : World) : Option String × World :=
  let w1 := netNext (viewPageReq fid) w
  match netResp w with
  | none => (none, w1)
  | some page =>
    let w2 := netNext (method2Req fid (extractConfirmTok page)) w1
    match netResp w1 with
    | none => (none, w2)
    | some p =>
      let w3 := writeF w2 fp p.length
      if 0 < p.length then (some fp, w3) else (none, w3)

/-- Method 3 of `downloadWithDirectMethods`: the alternate API URL.  Like
Method 2 it performs no HTML check: any non-empty payload counts as success. -/
def method3 (fid fp : String) (w : World) : Option String × World :=
  let w1 := netNext (method3Req fid) w
  match netResp w with
  | none => (none, w1)
  | some p =>
    let w2 := writeF w1 fp p.length
    if 0 < p.length then (some fp, w2) else (none, w2)

/-- `downloadWithDirectMethods`: try Methods 1–3 in order; if all fail, write a
zero-length placeholder file and throw (`none`).  PDF preview generation after
a success writes only under the separate previews directory and is modelled as
a no-op here. -/
def downloadWithDirectMethods (fid fp : String) (w : World) : Option String × World :=
  match method1 fid fp w with
  | (some r, w1) => (some r, w1)
  | (none, w1) =>
    match method2 fid fp w1 with
    | (some r, w2) => (some r, w2)
    | (none, w2) =>
      match method3 fid fp w2 with
      | (some r, w3) => (some r, w3)
      | (none, w3) => (none, writeF w3 fp 0)

/-- One of the two service-account approaches of `downloadDriveFile` (the
in-process native module, and the helper script run by `downloadWithNativeHelper`).
Both are child-process / out-of-band effects: when a service account is
configured the attempt consumes one process outcome which may write the target
file; otherwise it fails immediately.  The temporary credentials file the
helper writes and always deletes again is not modelled (it never touches the
download target). -/
def driveApproach (cfg : Cfg) (fp : String) (w : World) : Bool × World :=
  if cfg.driveConfigured then
    match extResp w with
    | .wrote n => (true, writeF (extNext w) fp n)
    | .ranNoWrite => (true, extNext w)
    | .threw => (false, extNext w)
  else (false, w)

/-- `downloadDriveFile`: native-module approach, then the helper script, then
`downloadWithDirectMethods`; a throw from the latter is caught and the direct
methods are retried once more; if that also fails, write an empty placeholder
file and throw (`none`). -/
def downloadDriveFile (cfg : Cfg) (fid fp : String) (w : World) : Option String × World :=
  let (ok1, w1) := driveApproach cfg fp w
  if ok1 && existsAt w1 fp && 0 < sizeAt w1 fp then (some fp, w1)
  else
    let (ok2, w2) := driveApproach cfg fp w1
    if ok2 && existsAt w2 fp && 0 < sizeAt w2 fp then (some fp, w2)
    else
      match downloadWithDirectMethods fid fp w2 with
      | (some r, w3) => (some r, w3)
      | (none, w3) =>
        match downloadWithDirectMethods fid fp w3 with
        | (some r, w4) => (some r, w4)
        | (none, w4) => (none, writeF w4 fp 0)

/-- The per-URL loop of `downloadDriveImage`: each URL is fetched; HTML
payloads (either signature) are skipped without writing; a written non-empty
payload is returned only when it also passes the `validImage` check. -/
def tryImageUrls (fp : String) : List String → World → Option String × World
  | [], w => (none, w)
  | u :: rest, w =>
    let w1 := netNext (imageReq u) w
    match netResp w with
    | none => tryImageUrls fp rest w1
    | some p =>
      if htmlAny100 p then tryImageUrls fp rest w1
      else
        let w2 := writeF w1 fp p.length
        if 0 < p.length then
          if validImage100 p then (some fp, w2) else tryImageUrls fp rest w2
        else tryImageUrls fp rest w2

/-- The cookie approach of `downloadDriveImage`: harvest cookies from the view
page, download with `confirm=t`, reject HTML payloads, succeed on a non-empty
write; an empty write falls through without throwing. -/
def imageCookie (fid fp : String) (w : World) : Option String × World :=
  let w1 := netNext (viewPageReq fid) w
  match netResp w with
  | none => (none, w1)
  | some _page =>
    let w2 := netNext (imageCookieReq fid) w1
    match netResp w1 with
    | none => (none, w2)
    | some p =>
      if htmlAny100 p then (none, w2)
      else
        let w3 := writeF w2 fp p.length
        if 0 < p.length then (some fp, w3) else (none, w3)

/-- The alternative-extension loop of `downloadDriveImage`: download to the
path with a replaced extension and copy the result over the target when
non-empty. -/
def tryAltExts (fid fp : String) : List String → World → Option String × World
  | [], w => (none, w)
  | e :: rest, w =>
    let w1 := netNext (altExtReq fid) w
    match netResp w with
    | none => tryAltExts fid fp rest w1
    | some p =>
      let ap := stripLastExt fp ++ e
      let w2 := writeF w1 ap p.length
      if 0 < p.length then
        (some fp, if ap = fp then w2 else writeF w2 fp p.length)
      else tryAltExts fid fp rest w2

/-- The decoded size of the embedded 1×1 transparent PNG placeholder written by
`downloadDriveImage` when every method fails (only its positivity matters). -/
def placeholderPngLength : Nat := 68

/-- `downloadDriveImage`: the direct image URLs, then the cookie approach, then
the alternative extensions, then `downloadDriveFile`, and finally the 1×1 PNG
placeholder, which is written to the target and returned as a success.  The
dead branch that would write an empty file if the placeholder write itself
threw is unreachable in this model (writes do not throw). -/
def downloadDriveImage (cfg : Cfg) (fid fp : String) (w : World) : Option String × World :=
  match tryImageUrls fp (imageUrls fid w.now) w with
  | (some r, w1) => (some r, w1)
  | (none, w1) =>
    match imageCookie fid fp w1 with
    | (some r, w2) => (some r, w2)
    | (none, w2) =>
      match tryAltExts fid fp [".jpg", ".png", ".jpeg"] w2 with
      | (some r, w3) => (some r, w3)
      | (none, w3) =>
        match downloadDriveFile cfg fid fp w3 with
        | (some r, w4) => (some r, w4)
        | (none, w4) => (some fp, writeF w4 fp placeholderPngLength)

/-- The non-Drive branch of `downloadFile`: one plain GET, write the payload,
succeed only for a non-empty file (no HTML check on this path). -/
def genericDownload (url fp : String) (w : World) : Option String × World :=
  let w1 := netNext (genericGetReq url) w
  match netResp w with
  | none => (none, w1)
  | some p =>
    let w2 := writeF w1 fp p.length
    if 0 < p.length then (some fp, w2) else (none, w2)

/-- `downloadFile`: the Drive-specific path is taken only when `extractFileId`
yields a truthy ID *and* the URL contains `google.com`; otherwise a single
generic GET is performed. -/
def downloadFile (cfg : Cfg) (url fp : String) (w : World) : Option String × World :=
  match extractFileId url with
  | some fid =>
    if !fid.isEmpty && containsS url "google.com" then
      if isImagePath fp then downloadDriveImage cfg fid fp w
      else downloadDriveFile cfg fid fp w
    else genericDownload url fp w
  | none => genericDownload url fp w

/-- The Drive fallback guard of `directDownload`: a URL mentioning
`drive.google.com` or `docs.google.com` whose `extractFileId` is truthy. -/
def googleFid (url : String) : Option String :=
  if containsS url "drive.google.com" || containsS url "docs.google.com" then
    match extractFileId url with
    | some fid => if fid.isEmpty then none else some fid
    | none => none
  else none

/-- Dispatch to the image-specific or generic Drive download, as
`directDownload` and `downloadFileFromUrl` do. -/
def driveDispatch (cfg : Cfg) (fid fp : String) (w : World) : Option String × World :=
  if isImagePath fp then downloadDriveImage cfg fid fp w
  else downloadDriveFile cfg fid fp w

/-- `directDownload`: one plain GET; an HTML payload on a Google URL reroutes
to the Drive-specific method (and its failure is caught and retried once by the
outer catch); an HTML payload elsewhere throws; a non-empty write succeeds; an
empty write or a network error falls into the catch, which retries the Drive
method for Google URLs and rethrows otherwise. -/
def directDownload (cfg : Cfg) (url fp : String) (w : World) : Option String × World :=
  let w1 := netNext (directReq url) w
  match netResp w with
  | some p =>
    if htmlAny100 p then
      match googleFid url with
      | some fid =>
        match driveDispatch cfg fid fp w1 with
        | (some r, w2) => (some r, w2)
        | (none, w2) => driveDispatch cfg fid fp w2
      | none => (none, w1)
    else
      let w2 := writeF w1 fp p.length
      if 0 < p.length then (some fp, w2)
      else
        match googleFid url with
        | some fid => driveDispatch cfg fid fp w2
        | none => (none, w2)
  | none =>
    match googleFid url with
    | some fid => driveDispatch cfg fid fp w1
    | none => (none, w1)

/-! ## `downloadAsset` (notion-sync module) -/

/-- The two asset kinds `downloadAsset` distinguishes. -/
inductive AssetType where
  | image
  | pdf
  deriving DecidableEq

/-- The result record of `downloadAsset`: the stable `app://` URL and the local
path of the materialized file. -/
structure DlResult where
  appUrl : String
  localPath : String
  deriving DecidableEq

/-- Default extension per asset kind. -/
def extDefault : AssetType → String
  | .image => ".png"
  | .pdf => ".pdf"

/-- Directory name per asset kind (`images` / `pdfs`). -/
def kindDir : AssetType → String
  | .image => "images"
  | .pdf => "pdfs"

/-- The extension `downloadAsset` derives from the URL: `path.extname(url)`
unless empty, `.com`, or longer than 5 characters, in which case the per-kind
default. -/
def assetExt (url : String) (ty : AssetType) : String :=
  let e := extnameS url
  if e.isEmpty || e = ".com" || 5 < e.length then extDefault ty else e

/-- The file name `downloadAsset` uses: the custom name plus extension when
given, otherwise a timestamp-and-random name. -/
def assetFilename (url : String) (ty : AssetType) (nm : Option String) (w : World) : String :=
  match nm with
  | some n => n ++ assetExt url ty
  | none => toString w.now ++ "_" ++ toString w.rand ++ assetExt url ty

/-- The per-kind download directory (`app.getPath('userData')` modelled as a
fixed root). -/
def assetDir (ty : AssetType) : String := "/userData/downloads/" ++ kindDir ty

/-- The target local path of an asset. -/
def assetLocalPath (url : String) (ty : AssetType) (nm : Option String) (w : World) : String :=
  assetDir ty ++ "/" ++ assetFilename url ty nm w

/-- The derived `app://` URL of an asset. -/
def assetAppUrl (url : String) (ty : AssetType) (nm : Option String) (w : World) : String :=
  "app://" ++ kindDir ty ++ "/" ++ assetFilename url ty nm w

/-- `retrieveNotionFile`: `null` without any request unless the URL is a
`secure.notion-static.com` URL; otherwise one authenticated GET whose payload
is returned. -/
def retrieveNotionFile (url : String) (w : World) : Option Payload × World :=
  if url.isEmpty || !containsS url "secure.notion-static.com" then (none, w)
  else
    let w1 := netNext (notionFileReq url) w
    match netResp w with
    | some p => (some p, w1)
    | none => (none, w1)

/-- The last-resort plain axios attempt inside `downloadAsset`'s image
alternatives: rejects HTML payloads, writes, succeeds on non-zero size. -/
def lastResortAttempt (url lp : String) (w : World) : Bool × World :=
  let w1 := netNext (lastResortReq url) w
  match netResp w with
  | none => (false, w1)
  | some p =>
    if htmlAny100 p then (false, w1)
    else
      let w2 := writeF w1 lp p.length
      if 0 < p.length then (true, w2) else (false, w2)

/-- The Notion alternative inside `downloadAsset`'s image fallbacks: for
`notion-static.com` URLs with a configured API key, retrieve the file directly
and write it when non-empty. -/
def notionAlternative (cfg : Cfg) (url lp : String) (w : World) : Bool × World :=
  if containsS url "notion-static.com" && cfg.notionKey then
    match retrieveNotionFile url w with
    | (some p, w') =>
      if 0 < p.length then (true, writeF w' lp p.length) else (false, w')
    | (none, w') => (false, w')
  else (false, w)

/-- The Drive alternative inside `downloadAsset`'s image fallbacks: when
`extractFileId` is truthy, run `downloadDriveImage` and succeed as soon as it
returns (its own throw is caught). -/
def driveAlternative (cfg : Cfg) (url lp : String) (w : World) : Bool × World :=
  match extractFileId url with
  | some fid =>
    if !fid.isEmpty then
      match downloadDriveImage cfg fid lp w with
      | (some _, w') => (true, w')
      | (none, w') => (false, w')
    else (false, w)
  | none => (false, w)

/-- The alternative image download methods of `downloadAsset`, run when
`directDownload` returned normally but left no usable file: direct Notion
retrieval for Notion URLs, then the Drive image download for URLs with a
truthy file ID, then the last-resort GET. -/
def imageAlternatives (cfg : Cfg) (url lp : String) (w : World) : Bool × World :=
  match notionAlternative cfg url lp w with
  | (true, w1) => (true, w1)
  | (false, w1) =>
    match driveAlternative cfg url lp w1 with
    | (true, w2) => (true, w2)
    | (false, w2) => lastResortAttempt url lp w2

/-- The download phase of `downloadAsset` once the target path is known to be
free: `directDownload` plus the alternatives for images (a throw from
`directDownload` is caught and skips the alternatives), `downloadFile` for
PDFs. -/
def downloadAssetFresh (cfg : Cfg) (url : String) (ty : AssetType) (lp au : String)
    (w : World) : Option DlResult × World :=
  let (succ, w1) :=
    match ty with
    | .image =>
      match directDownload cfg url lp w with
      | (some _, w') =>
        if existsAt w' lp && 0 < sizeAt w' lp then (true, w')
        else imageAlternatives cfg url lp w'
      | (none, w') => (false, w')
    | .pdf =>
      match downloadFile cfg url lp w with
      | (some _, w') => (true, w')
      | (none, w') => (false, w')
  if succ then (some ⟨au, lp⟩, w1) else (none, w1)

/-- `downloadAsset`: derive the file name and target path; reuse a non-empty
existing file without any network traffic; delete an empty existing file and
re-download; return the `app://` URL and local path on success and `null` on
failure. -/
def downloadAsset (cfg : Cfg) (url : String) (ty : AssetType) (nm : Option String)
    (w : World) : Option DlResult × World :=
  if url.isEmpty then (none, w)
  else
    let fn := assetFilename url ty nm w
    let lp := assetDir ty ++ "/" ++ fn
    let au := "app://" ++ kindDir ty ++ "/" ++ fn
    if existsAt w lp then
      if 0 < sizeAt w lp then (some ⟨au, lp⟩, w)
      else downloadAssetFresh cfg url ty lp au (eraseF w lp)
    else downloadAssetFresh cfg url ty lp au w

/-! ## PDF preview generation (both copies of the pdf-utils module) -/

/-- `path.basename(p, '.pdf')`: the basename with a final `.pdf` removed. -/
def basenameNoPdf (p : String) : String :=
  let b := basenameL p.toList
  if endsWithL ".pdf".toList b then String.mk (b.take (b.length - 4))
  else String.mk b

/-- The previews directory (`app.getPath('userData')` plus `previews`). -/
def previewsDir : String := "/userData/previews"

/-- The derived preview path for a PDF. -/
def previewPathOf (pdfPath : String) : String :=
  previewsDir ++ "/" ++ basenameNoPdf pdfPath ++ "_preview.png"

/-- `getAppUrl` (pdf-utils): map a local path into the `app://` scheme by the
directory it lives in, returning the path unchanged otherwise. -/
def getAppUrl (fp : String) : String :=
  if containsS fp "/images/" then "app://images/" ++ basenameS fp
  else if containsS fp "/pdfs/" then "app://pdfs/" ++ basenameS fp
  else if containsS fp "/previews/" then "app://previews/" ++ basenameS fp
  else fp

/-- The path of the bundled placeholder asset the first pdf-utils copy tries to
copy when every converter fails. -/
def placeholderAssetPath : String := "/app/assets/pdf-placeholder.png"

/-- The decoded size of the base64 placeholder PNG embedded in the second
pdf-utils copy (only its positivity matters). -/
def placeholderDataLength : Nat := 2231

/-- The converter loop of the first `createPdfPreview` copy: each of the 7
commands is a child-process attempt, and the per-command success check is only
`fs.existsSync(previewPath)` — no size check. -/
def convLoopV1 (pv : String) : Nat → World → Option String × World
  | 0, w => (none, w)
  | k + 1, w =>
    match extResp w with
    | .threw => convLoopV1 pv k (extNext w)
    | .ranNoWrite =>
      if existsAt (extNext w) pv then (some (getAppUrl pv), extNext w)
      else convLoopV1 pv k (extNext w)
    | .wrote n => (some (getAppUrl pv), writeF (extNext w) pv n)

/-- The first copy of `createPdfPreview` (the one with 7 converter commands and
the bundled placeholder file): returns `null` when the source PDF is missing,
short-circuits on any existing preview file, and after all converters fail
copies the bundled placeholder — returning `null` when that file is absent. -/
def createPdfPreviewV1 (pdfPath : String) (w : World) : Option String × World :=
  if !existsAt w pdfPath then (none, w)
  else
    let pv := previewPathOf pdfPath
    if existsAt w pv then (some (getAppUrl pv), w)
    else
      match convLoopV1 pv 7 w with
      | (some u, w1) => (some u, w1)
      | (none, w1) =>
        if existsAt w1 placeholderAssetPath then
          (some (getAppUrl pv), writeF w1 pv (sizeAt w1 placeholderAssetPath))
        else (none, w1)

/-- The converter loop of the second `createPdfPreview` copy: 4 commands, and
the per-command success check requires a non-empty output file. -/
def convLoopV2 (pv : String) : Nat → World → Bool × World
  | 0, w => (false, w)
  | k + 1, w =>
    match extResp w with
    | .threw => convLoopV2 pv k (extNext w)
    | .ranNoWrite =>
      if existsAt (extNext w) pv && 0 < sizeAt (extNext w) pv then (true, extNext w)
      else convLoopV2 pv k (extNext w)
    | .wrote n =>
      if 0 < n then (true, writeF (extNext w) pv n)
      else convLoopV2 pv k (writeF (extNext w) pv n)

/-- The second copy of `createPdfPreview` (4 converter commands, embedded
base64 placeholder): returns `null` when the source PDF is missing,
short-circuits on any existing preview file (no size check), and otherwise
always ends with a preview file — the embedded placeholder write cannot fail
in this model, so the dead `return null` after a failed write is omitted. -/
def createPdfPreviewV2 (pdfPath : String) (w : World) : Option String × World :=
  if !existsAt w pdfPath then (none, w)
  else
    let pv := previewPathOf pdfPath
    if existsAt w pv then (some (getAppUrl pv), w)
    else
      match convLoopV2 pv 4 w with
      | (true, w1) => (some (getAppUrl pv), w1)
      | (false, w1) => (some (getAppUrl pv), writeF w1 pv placeholderDataLength)

/-! ## The sync pass (`syncWithNotion`, notion-sync module) -/

/-- How one fetched record fares in the per-record loop of `syncWithNotion`:
its title is empty (skipped), processing throws (tallied as an error),
`processProduct` returns a product (created or updated depending on whether the
page id was already in the database), or `processProduct` returns `null`
(skipped). -/
inductive RecordStep where
  | emptyTitle
  | throws
  | processed (isExisting : Bool)
  | nullResult
  deriving DecidableEq

/-- The aggregate counters of a sync report. -/
structure SyncStats where
  created : Nat
  updated : Nat
  skipped : Nat
  errors : Nat
  deriving DecidableEq

/-- One iteration of the per-record loop: exactly one counter is bumped. -/
def tallyRecord (s : SyncStats) (o : RecordStep) : SyncStats :=
  match o with
  | .emptyTitle => { s with skipped := s.skipped + 1 }
  | .throws => { s with errors := s.errors + 1 }
  | .processed true => { s with updated := s.updated + 1 }
  | .processed false => { s with created := s.created + 1 }
  | .nullResult => { s with skipped := s.skipped + 1 }

/-- The whole per-record loop over the fetched listing. -/
def runRecords (os : List RecordStep) : SyncStats :=
  os.foldl tallyRecord ⟨0, 0, 0, 0⟩

/-- Sum of all four counters. -/
def SyncStats.total (s : SyncStats) : Nat :=
  s.created + s.updated + s.skipped + s.errors

/-- Outcome of the Notion database query underlying a sync pass: the request
errors or times out, the API answers with an error object, the response has no
`results` field, or it yields a listing. -/
inductive QueryOutcome where
  | netError
  | apiError
  | missingResults
  | ok (records : List RecordStep)

/-- `queryNotionDatabase`: every failure mode is caught inside the function
(even the thrown API-error) and turned into an empty listing; only a
successful query yields records. -/
def queryNotionDatabase : QueryOutcome → List RecordStep
  | .ok rs => rs
  | .netError => []
  | .apiError => []
  | .missingResults => []

/-- Result record of a sync pass. -/
structure SyncResult where
  success : Bool
  message : String
  deriving DecidableEq

/-- The completion message built from the counters. -/
def syncMessage (s : SyncStats) : String :=
  "Sync completed: " ++ toString s.created ++ " created, " ++ toString s.updated
    ++ " updated, " ++ toString s.skipped ++ " skipped, " ++ toString s.errors
    ++ " errors"

/-- `syncWithNotion`: fail only when the Notion settings are missing; otherwise
query the database (whose failures all collapse to an empty listing), run the
per-record loop, and report success with the counter message.  Sticker-page
prefetching and the final timestamp write touch neither the outcome nor the
counters and are elided. -/
def syncWithNotion (settingsConfigured : Bool) (q : QueryOutcome) : SyncResult :=
  if !settingsConfigured then ⟨false, "Notion settings not configured"⟩
  else ⟨true, syncMessage (runRecords (queryNotionDatabase q))⟩

/-! ## Basic facts about the world operations -/

@[simp]
theorem fs_netNext (r : NetRequest) (w : World) : (netNext r w).fs = w.fs := rfl

@[simp]
theorem sizeAt_netNext (r : NetRequest) (w : World) (p : String) :
    sizeAt (netNext r w) p = sizeAt w p := rfl

@[simp]
theorem existsAt_netNext (r : NetRequest) (w : World) (p : String) :
    existsAt (netNext r w) p = existsAt w p := rfl

@[simp]
theorem fs_extNext (w : World) : (extNext w).fs = w.fs := rfl

@[simp]
theorem sizeAt_extNext (w : World) (p : String) : sizeAt (extNext w) p = sizeAt w p := rfl

@[simp]
theorem sizeAt_writeF_self (w : World) (p : String) (n : Nat) :
    sizeAt (writeF w p n) p = n := by
  simp [sizeAt, writeF]

@[simp]
theorem fs_writeF_self (w : World) (p : String) (n : Nat) :
    (writeF w p n).fs p = some n := by
  simp [writeF]

@[simp]
theorem existsAt_writeF_self (w : World) (p : String) (n : Nat) :
    existsAt (writeF w p n) p = true := by
  simp [existsAt, writeF]

theorem sizeAt_pos_exists {w : World} {p : String} (h : 0 < sizeAt w p) :
    existsAt w p = true := by
  unfold sizeAt at h
  unfold existsAt
  cases hfs : w.fs p with
  | none => rw [hfs] at h; simp at h
  | some k => simp

theorem fs_eq_of_sizeAt_pos {w : World} {p : String} (h : 0 < sizeAt w p) :
    w.fs p = some (sizeAt w p) := by
  unfold sizeAt at h ⊢
  cases hfs : w.fs p with
  | none => rw [hfs] at h; simp at h
  | some k => simp

/-! ## Success and failure facts for the Drive strategy chain -/

theorem method1_success {fid fp : String} {w w' : World} {r : String}
    (h : method1 fid fp w = (some r, w')) : r = fp ∧ 0 < sizeAt w' fp := by
  unfold method1 at h
  cases hp : netResp w with
  | none => rw [hp] at h; simp at h
  | some p =>
    rw [hp] at h
    simp only at h
    split at h
    · simp at h
    · split at h
      · rw [Prod.mk.injEq] at h
        obtain ⟨h1, h2⟩ := h
        cases h1
        subst h2
        simp
        omega
      · simp at h

theorem method2_success {fid fp : String} {w w' : World} {r : String}
    (h : method2 fid fp w = (some r, w')) : r = fp ∧ 0 < sizeAt w' fp := by
  unfold method2 at h
  cases hp : netResp w with
  | none => rw [hp] at h; simp at h
  | some page =>
    rw [hp] at h
    simp only at h
    cases hp2 : netResp (netNext (viewPageReq fid) w) with
    | none => rw [hp2] at h; simp at h
    | some p =>
      rw [hp2] at h
      simp only at h
      split at h
      · rw [Prod.mk.injEq] at h
        obtain ⟨h1, h2⟩ := h
        cases h1
        subst h2
        simp
        omega
      · simp at h

theorem method3_success {fid fp : String} {w w' : World} {r : String}
    (h : method3 fid fp w = (some r, w')) : r = fp ∧ 0 < sizeAt w' fp := by
  unfold method3 at h
  cases hp : netResp w with
  | none => rw [hp] at h; simp at h
  | some p =>
    rw [hp] at h
    simp only at h
    split at h
    · rw [Prod.mk.injEq] at h
      obtain ⟨h1, h2⟩ := h
      cases h1
      subst h2
      simp
      omega
    · simp at h

theorem downloadWithDirectMethods_success {fid fp : String} {w w' : World} {r : String}
    (h : downloadWithDirectMethods fid fp w = (some r, w')) :
    r = fp ∧ 0 < sizeAt w' fp := by
  unfold downloadWithDirectMethods at h
  rcases h1 : method1 fid fp w with ⟨o1, w1⟩
  rw [h1] at h
  cases o1 with
  | some r1 =>
    simp only at h
    rw [Prod.mk.injEq] at h
    obtain ⟨hr, hw⟩ := h
    injection hr with hr
    subst hr; subst hw
    exact method1_success h1
  | none =>
    simp only at h
    rcases h2 : method2 fid fp w1 with ⟨o2, w2⟩
    rw [h2] at h
    cases o2 with
    | some r2 =>
      simp only at h
      rw [Prod.mk.injEq] at h
      obtain ⟨hr, hw⟩ := h
      injection hr with hr
      subst hr; subst hw
      exact method2_success h2
    | none =>
      simp only at h
      rcases h3 : method3 fid fp w2 with ⟨o3, w3⟩
      rw [h3] at h
      cases o3 with
      | some r3 =>
        simp only at h
        rw [Prod.mk.injEq] at h
        obtain ⟨hr, hw⟩ := h
        injection hr with hr
        subst hr; subst hw
        exact method3_success h3
      | none => simp at h

theorem downloadWithDirectMethods_failure {fid fp : String} {w w' : World} {o : Option String}
    (h : downloadWithDirectMethods fid fp w = (o, w')) (ho : o = none) :
    w'.fs fp = some 0 := by
  subst ho
  unfold downloadWithDirectMethods at h
  rcases h1 : method1 fid fp w with ⟨o1, w1⟩
  rw [h1] at h
  cases o1 with
  | some r1 => simp at h
  | none =>
    simp only at h
    rcases h2 : method2 fid fp w1 with ⟨o2, w2⟩
    rw [h2] at h
    cases o2 with
    | some r2 => simp at h
    | none =>
      simp only at h
      rcases h3 : method3 fid fp w2 with ⟨o3, w3⟩
      rw [h3] at h
      cases o3 with
      | some r3 => simp at h
      | none =>
        simp only at h
        rw [Prod.mk.injEq] at h
        obtain ⟨-, hw⟩ := h
        subst hw
        simp

theorem downloadDriveFile_success {cfg : Cfg} {fid fp : String} {w w' : World} {r : String}
    (h : downloadDriveFile cfg fid fp w = (some r, w')) :
    r = fp ∧ 0 < sizeAt w' fp := by
  unfold downloadDriveFile at h
  rcases ha1 : driveApproach cfg fp w with ⟨ok1, w1⟩
  rw [ha1] at h
  simp only at h
  split at h
  · rename_i hg1
    rw [Prod.mk.injEq] at h
    obtain ⟨hr, hw⟩ := h
    injection hr with hr
    subst hr; subst hw
    simp only [Bool.and_eq_true, decide_eq_true_eq] at hg1
    exact ⟨rfl, hg1.2⟩
  · rcases ha2 : driveApproach cfg fp w1 with ⟨ok2, w2⟩
    rw [ha2] at h
    simp only at h
    split at h
    · rename_i hg2
      rw [Prod.mk.injEq] at h
      obtain ⟨hr, hw⟩ := h
      injection hr with hr
      subst hr; subst hw
      simp only [Bool.and_eq_true, decide_eq_true_eq] at hg2
      exact ⟨rfl, hg2.2⟩
    · rcases hd1 : downloadWithDirectMethods fid fp w2 with ⟨o3, w3⟩
      rw [hd1] at h
      cases o3 with
      | some r3 =>
        simp only at h
        rw [Prod.mk.injEq] at h
        obtain ⟨hr, hw⟩ := h
        injection hr with hr
        subst hr; subst hw
        exact downloadWithDirectMethods_success hd1
      | none =>
        simp only at h
        rcases hd2 : downloadWithDirectMethods fid fp w3 with ⟨o4, w4⟩
        rw [hd2] at h
        cases o4 with
        | some r4 =>
          simp only at h
          rw [Prod.mk.injEq] at h
          obtain ⟨hr, hw⟩ := h
          injection hr with hr
          subst hr; subst hw
          exact downloadWithDirectMethods_success hd2
        | none => simp at h

theorem downloadDriveFile_failure {cfg : Cfg} {fid fp : String} {w w' : World}
    (h : downloadDriveFile cfg fid fp w = (none, w')) : w'.fs fp = some 0 := by
  unfold downloadDriveFile at h
  rcases ha1 : driveApproach cfg fp w with ⟨ok1, w1⟩
  rw [ha1] at h
  simp only at h
  split at h
  · simp at h
  · rcases ha2 : driveApproach cfg fp w1 with ⟨ok2, w2⟩
    rw [ha2] at h
    simp only at h
    split at h
    · simp at h
    · rcases hd1 : downloadWithDirectMethods fid fp w2 with ⟨o3, w3⟩
      rw [hd1] at h
      cases o3 with
      | some r3 => simp at h
      | none =>
        simp only at h
        rcases hd2 : downloadWithDirectMethods fid fp w3 with ⟨o4, w4⟩
        rw [hd2] at h
        cases o4 with
        | some r4 => simp at h
        | none =>
          simp only at h
          rw [Prod.mk.injEq] at h
          obtain ⟨-, hw⟩ := h
          subst hw
          simp

theorem tryImageUrls_success {fp : String} {us : List String} {w w' : World} {r : String}
    (h : tryImageUrls fp us w = (some r, w')) : r = fp ∧ 0 < sizeAt w' fp := by
  induction us generalizing w with
  | nil => simp [tryImageUrls] at h
  | cons u rest ih =>
    unfold tryImageUrls at h
    cases hp : netResp w with
    | none =>
      rw [hp] at h
      exact ih h
    | some p =>
      rw [hp] at h
      simp only at h
      split at h
      · exact ih h
      · split at h
        · split at h
          · rw [Prod.mk.injEq] at h
            obtain ⟨hr, hw⟩ := h
            injection hr with hr
            subst hr; subst hw
            rename_i hlen _
            simp
            omega
          · exact ih h
        · exact ih h

theorem imageCookie_success {fid fp : String} {w w' : World} {r : String}
    (h : imageCookie fid fp w = (some r, w')) : r = fp ∧ 0 < sizeAt w' fp := by
  unfold imageCookie at h
  cases hp : netResp w with
  | none => rw [hp] at h; simp at h
  | some page =>
    rw [hp] at h
    simp only at h
    cases hp2 : netResp (netNext (viewPageReq fid) w) with
    | none => rw [hp2] at h; simp at h
    | some p =>
      rw [hp2] at h
      simp only at h
      split at h
      · simp at h
      · split at h
        · rw [Prod.mk.injEq] at h
          obtain ⟨hr, hw⟩ := h
          injection hr with hr
          subst hr; subst hw
          rename_i hlen
          simp
          omega
        · simp at h

theorem tryAltExts_success {fid fp : String} {es : List String} {w w' : World} {r : String}
    (h : tryAltExts fid fp es w = (some r, w')) : r = fp ∧ 0 < sizeAt w' fp := by
  induction es generalizing w with
  | nil => simp [tryAltExts] at h
  | cons e rest ih =>
    unfold tryAltExts at h
    cases hp : netResp w with
    | none =>
      rw [hp] at h
      exact ih h
    | some p =>
      rw [hp] at h
      simp only at h
      split at h
      · rename_i hlen
        rw [Prod.mk.injEq] at h
        obtain ⟨hr, hw⟩ := h
        injection hr with hr
        subst hr; subst hw
        refine ⟨rfl, ?_⟩
        split
        · rename_i hap
          rw [hap]
          simp
          omega
        · simp
          omega
      · exact ih h

theorem downloadDriveImage_success {cfg : Cfg} {fid fp : String} {w w' : World} {r : String}
    (h : downloadDriveImage cfg fid fp w = (some r, w')) :
    r = fp ∧ 0 < sizeAt w' fp := by
  unfold downloadDriveImage at h
  rcases h1 : tryImageUrls fp (imageUrls fid w.now) w with ⟨o1, w1⟩
  rw [h1] at h
  cases o1 with
  | some r1 =>
    simp only at h
    rw [Prod.mk.injEq] at h
    obtain ⟨hr, hw⟩ := h
    injection hr with hr
    subst hr; subst hw
    exact tryImageUrls_success h1
  | none =>
    simp only at h
    rcases h2 : imageCookie fid fp w1 with ⟨o2, w2⟩
    rw [h2] at h
    cases o2 with
    | some r2 =>
      simp only at h
      rw [Prod.mk.injEq] at h
      obtain ⟨hr, hw⟩ := h
      injection hr with hr
      subst hr; subst hw
      exact imageCookie_success h2
    | none =>
      simp only at h
      rcases h3 : tryAltExts fid fp [".jpg", ".png", ".jpeg"] w2 with ⟨o3, w3⟩
      rw [h3] at h
      cases o3 with
      | some r3 =>
        simp only at h
        rw [Prod.mk.injEq] at h
        obtain ⟨hr, hw⟩ := h
        injection hr with hr
        subst hr; subst hw
        exact tryAltExts_success h3
      | none =>
        simp only at h
        rcases h4 : downloadDriveFile cfg fid fp w3 with ⟨o4, w4⟩
        rw [h4] at h
        cases o4 with
        | some r4 =>
          simp only at h
          rw [Prod.mk.injEq] at h
          obtain ⟨hr, hw⟩ := h
          injection hr with hr
          subst hr; subst hw
          exact downloadDriveFile_success h4
        | none =>
          simp only at h
          rw [Prod.mk.injEq] at h
          obtain ⟨hr, hw⟩ := h
          injection hr with hr
          subst hr; subst hw
          refine ⟨rfl, ?_⟩
          simp [placeholderPngLength]

theorem genericDownload_success {url fp : String} {w w' : World} {r : String}
    (h : genericDownload url fp w = (some r, w')) : r = fp ∧ 0 < sizeAt w' fp := by
  unfold genericDownload at h
  cases hp : netResp w with
  | none => rw [hp] at h; simp at h
  | some p =>
    rw [hp] at h
    simp only at h
    split at h
    · rw [Prod.mk.injEq] at h
      obtain ⟨hr, hw⟩ := h
      injection hr with hr
      subst hr; subst hw
      rename_i hlen
      simp
      omega
    · simp at h

theorem driveDispatch_success {cfg : Cfg} {fid fp : String} {w w' : World} {r : String}
    (h : driveDispatch cfg fid fp w = (some r, w')) : r = fp ∧ 0 < sizeAt w' fp := by
  unfold driveDispatch at h
  split at h
  · exact downloadDriveImage_success h
  · exact downloadDriveFile_success h

theorem downloadFile_success {cfg : Cfg} {url fp : String} {w w' : World} {r : String}
    (h : downloadFile cfg url fp w = (some r, w')) : r = fp ∧ 0 < sizeAt w' fp := by
  unfold downloadFile at h
  cases hf : extractFileId url with
  | none =>
    rw [hf] at h
    exact genericDownload_success h
  | some fid =>
    rw [hf] at h
    simp only at h
    split at h
    · split at h
      · exact downloadDriveImage_success h
      · exact downloadDriveFile_success h
    · exact genericDownload_success h

theorem directDownload_success {cfg : Cfg} {url fp : String} {w w' : World} {r : String}
    (h : directDownload cfg url fp w = (some r, w')) : r = fp ∧ 0 < sizeAt w' fp := by
  unfold directDownload at h
  cases hp : netResp w with
  | none =>
    rw [hp] at h
    simp only at h
    cases hg : googleFid url with
    | some fid =>
      rw [hg] at h
      exact driveDispatch_success h
    | none => rw [hg] at h; simp at h
  | some p =>
    rw [hp] at h
    simp only at h
    split at h
    · cases hg : googleFid url with
      | some fid =>
        rw [hg] at h
        simp only at h
        rcases hd1 : driveDispatch cfg fid fp (netNext (directReq url) w) with ⟨o1, w1⟩
        rw [hd1] at h
        cases o1 with
        | some r1 =>
          simp only at h
          rw [Prod.mk.injEq] at h
          obtain ⟨hr, hw⟩ := h
          injection hr with hr
          subst hr; subst hw
          exact driveDispatch_success hd1
        | none =>
          simp only at h
          exact driveDispatch_success h
      | none => rw [hg] at h; simp at h
    · split at h
      · rw [Prod.mk.injEq] at h
        obtain ⟨hr, hw⟩ := h
        injection hr with hr
        subst hr; subst hw
        rename_i hlen
        simp
        omega
      · cases hg : googleFid url with
        | some fid =>
          rw [hg] at h
          exact driveDispatch_success h
        | none => rw [hg] at h; simp at h

theorem lastResortAttempt_success {url lp : String} {w w' : World}
    (h : lastResortAttempt url lp w = (true, w')) : 0 < sizeAt w' lp := by
  unfold lastResortAttempt at h
  cases hp : netResp w with
  | none => rw [hp] at h; simp at h
  | some p =>
    rw [hp] at h
    simp only at h
    split at h
    · simp at h
    · split at h
      · rw [Prod.mk.injEq] at h
        obtain ⟨-, hw⟩ := h
        subst hw
        rename_i hlen
        simp
        omega
      · simp at h

theorem notionAlternative_success {cfg : Cfg} {url lp : String} {w w' : World}
    (h : notionAlternative cfg url lp w = (true, w')) : 0 < sizeAt w' lp := by
  unfold notionAlternative at h
  split at h
  · rcases hn : retrieveNotionFile url w with ⟨on1, wn⟩
    rw [hn] at h
    cases on1 with
    | some p =>
      simp only at h
      split at h
      · rename_i hlen
        rw [Prod.mk.injEq] at h
        obtain ⟨-, hw⟩ := h
        subst hw
        simp
        omega
      · simp at h
    | none => simp at h
  · simp at h

theorem driveAlternative_success {cfg : Cfg} {url lp : String} {w w' : World}
    (h : driveAlternative cfg url lp w = (true, w')) : 0 < sizeAt w' lp := by
  unfold driveAlternative at h
  cases hf : extractFileId url with
  | none => rw [hf] at h; simp at h
  | some fid =>
    rw [hf] at h
    simp only at h
    split at h
    · rcases hd : downloadDriveImage cfg fid lp w with ⟨o1, w1⟩
      rw [hd] at h
      cases o1 with
      | some r1 =>
        simp only at h
        rw [Prod.mk.injEq] at h
        obtain ⟨-, hw⟩ := h
        subst hw
        obtain ⟨hr, hs⟩ := downloadDriveImage_success hd
        subst hr
        exact hs
      | none => simp at h
    · simp at h

theorem imageAlternatives_success {cfg : Cfg} {url lp : String} {w w' : World}
    (h : imageAlternatives cfg url lp w = (true, w')) : 0 < sizeAt w' lp := by
  unfold imageAlternatives at h
  rcases h1 : notionAlternative cfg url lp w with ⟨s1, w1⟩
  rw [h1] at h
  cases s1 with
  | true =>
    simp only at h
    rw [Prod.mk.injEq] at h
    obtain ⟨-, hw⟩ := h
    subst hw
    exact notionAlternative_success h1
  | false =>
    simp only at h
    rcases h2 : driveAlternative cfg url lp w1 with ⟨s2, w2⟩
    rw [h2] at h
    cases s2 with
    | true =>
      simp only at h
      rw [Prod.mk.injEq] at h
      obtain ⟨-, hw⟩ := h
      subst hw
      exact driveAlternative_success h2
    | false =>
      simp only at h
      exact lastResortAttempt_success h

theorem downloadAssetFresh_success {cfg : Cfg} {url : String} {ty : AssetType}
    {lp au : String} {w w' : World} {r : DlResult}
    (h : downloadAssetFresh cfg url ty lp au w = (some r, w')) :
    r = ⟨au, lp⟩ ∧ 0 < sizeAt w' lp := by
  unfold downloadAssetFresh at h
  cases ty with
  | image =>
    simp only at h
    rcases hd : directDownload cfg url lp w with ⟨o1, w1⟩
    rw [hd] at h
    cases o1 with
    | some r1 =>
      simp only at h
      split at h
      · rename_i hg
        rw [Prod.mk.injEq] at h
        obtain ⟨hr, hw⟩ := h
        injection hr with hr
        subst hr; subst hw
        simp only [Bool.and_eq_true, decide_eq_true_eq] at hg
        exact ⟨rfl, hg.2⟩
      · rcases ha : imageAlternatives cfg url lp w1 with ⟨s2, w2⟩
        rw [ha] at h
        cases s2 with
        | true =>
          simp only at h
          rw [Prod.mk.injEq] at h
          obtain ⟨hr, hw⟩ := h
          injection hr with hr
          subst hr; subst hw
          exact ⟨rfl, imageAlternatives_success ha⟩
        | false => simp at h
    | none => simp at h
  | pdf =>
    simp only at h
    rcases hd : downloadFile cfg url lp w with ⟨o1, w1⟩
    rw [hd] at h
    cases o1 with
    | some r1 =>
      simp only at h
      rw [Prod.mk.injEq] at h
      obtain ⟨hr, hw⟩ := h
      injection hr with hr
      subst hr; subst hw
      obtain ⟨hr1, hs1⟩ := downloadFile_success hd
      exact ⟨rfl, hs1⟩
    | none => simp at h

theorem downloadAsset_success {cfg : Cfg} {url : String} {ty : AssetType}
    {nm : Option String} {w w' : World} {r : DlResult}
    (h : downloadAsset cfg url ty nm w = (some r, w')) :
    r = ⟨assetAppUrl url ty nm w, assetLocalPath url ty nm w⟩
      ∧ 0 < sizeAt w' (assetLocalPath url ty nm w) := by
  unfold downloadAsset at h
  split at h
  · simp at h
  · simp only at h
    split at h
    · split at h
      · rename_i hsz
        rw [Prod.mk.injEq] at h
        obtain ⟨hr, hw⟩ := h
        injection hr with hr
        subst hr; subst hw
        exact ⟨rfl, hsz⟩
      · exact downloadAssetFresh_success h
    · exact downloadAssetFresh_success h

@[simp]
theorem assetFilename_some (url : String) (ty : AssetType) (n : String) (w : World) :
    assetFilename url ty (some n) w = n ++ assetExt url ty := rfl

theorem downloadAsset_zero_redownload {cfg : Cfg} {url : String} {ty : AssetType}
    {nm : Option String} {w : World} (hu : url.isEmpty = false)
    (h0 : w.fs (assetLocalPath url ty nm w) = some 0) :
    downloadAsset cfg url ty nm w
      = downloadAssetFresh cfg url ty (assetLocalPath url ty nm w)
          (assetAppUrl url ty nm w) (eraseF w (assetLocalPath url ty nm w)) := by
  simp only [assetLocalPath, assetAppUrl] at h0 ⊢
  unfold downloadAsset
  rw [hu]
  simp only [Bool.false_eq_true, if_false, existsAt, sizeAt, h0]
  simp

theorem downloadAsset_idem {cfg : Cfg} {url : String} {ty : AssetType}
    {nm : String} {w : World}
    (h : (downloadAsset cfg url ty (some nm) w).1.isSome = true) :
    downloadAsset cfg url ty (some nm) ((downloadAsset cfg url ty (some nm) w).2)
      = downloadAsset cfg url ty (some nm) w := by
  rcases hrun : downloadAsset cfg url ty (some nm) w with ⟨o, w'⟩
  rw [hrun] at h
  cases o with
  | none => simp at h
  | some r =>
    have hu : url.isEmpty = false := by
      cases hUrl : url.isEmpty with
      | false => rfl
      | true =>
        unfold downloadAsset at hrun
        rw [hUrl] at hrun
        simp at hrun
    obtain ⟨hr, hs⟩ := downloadAsset_success hrun
    subst hr
    simp only [assetLocalPath, assetFilename_some] at hs
    simp only
    unfold downloadAsset
    rw [hu]
    have hex := sizeAt_pos_exists hs
    simp only [Bool.false_eq_true, if_false, assetFilename_some, hex, if_true, hs,
      assetAppUrl, assetLocalPath]

/-! ## Which requests the pipeline can issue, and their timeouts -/

/-- A request whose configured timeout is bounded within 30–60 seconds. -/
def boundedTimeout (r : NetRequest) : Prop :=
  ∃ t, r.timeoutMs = some t ∧ 30000 ≤ t ∧ t ≤ 60000

/-- The property every request issued by the pipeline satisfies: a 30–60 s
timeout, except for the view-page cookie harvest, which sets none. -/
def pipelineReqOk (r : NetRequest) : Prop :=
  boundedTimeout r ∨ ∃ fid, r = viewPageReq fid

theorem pipelineReqOk_30 (u : String) : pipelineReqOk ⟨u, some 30000⟩ :=
  Or.inl ⟨30000, rfl, by omega, by omega⟩

theorem pipelineReqOk_60 (u : String) : pipelineReqOk ⟨u, some 60000⟩ :=
  Or.inl ⟨60000, rfl, by omega, by omega⟩

theorem pipelineReqOk_view (fid : String) : pipelineReqOk (viewPageReq fid) :=
  Or.inr ⟨fid, rfl⟩

@[simp]
theorem log_writeF (w : World) (p : String) (n : Nat) : (writeF w p n).log = w.log := rfl

@[simp]
theorem log_eraseF (w : World) (p : String) : (eraseF w p).log = w.log := rfl

@[simp]
theorem log_extNext (w : World) : (extNext w).log = w.log := rfl

theorem mem_log_netNext {q r : NetRequest} {w : World} (h : q ∈ (netNext r w).log) :
    q ∈ w.log ∨ q = r := by
  simp only [netNext, List.mem_append, List.mem_singleton] at h
  exact h

theorem method1_log {fid fp : String} {w w' : World} {o : Option String} {q : NetRequest}
    (h : method1 fid fp w = (o, w')) (hq : q ∈ w'.log) :
    q ∈ w.log ∨ pipelineReqOk q := by
  have step : q ∈ (netNext (method1Req fid) w).log → q ∈ w.log ∨ pipelineReqOk q := by
    intro hq1
    rcases mem_log_netNext hq1 with h1 | h1
    · exact Or.inl h1
    · subst h1; exact Or.inr (pipelineReqOk_30 _)
  unfold method1 at h
  cases hp : netResp w <;> rw [hp] at h
  · injection h with h1 h2; subst h2
    exact step hq
  · simp only at h
    split at h
    · injection h with h1 h2; subst h2
      exact step hq
    · split at h <;> (injection h with h1 h2; subst h2; exact step (by simpa using hq))

theorem method2_log {fid fp : String} {w w' : World} {o : Option String} {q : NetRequest}
    (h : method2 fid fp w = (o, w')) (hq : q ∈ w'.log) :
    q ∈ w.log ∨ pipelineReqOk q := by
  have step1 : q ∈ (netNext (viewPageReq fid) w).log → q ∈ w.log ∨ pipelineReqOk q := by
    intro hq1
    rcases mem_log_netNext hq1 with h1 | h1
    · exact Or.inl h1
    · subst h1; exact Or.inr (pipelineReqOk_view _)
  have step2 : ∀ tok, q ∈ (netNext (method2Req fid tok) (netNext (viewPageReq fid) w)).log →
      q ∈ w.log ∨ pipelineReqOk q := by
    intro tok hq1
    rcases mem_log_netNext hq1 with h1 | h1
    · exact step1 h1
    · subst h1; exact Or.inr (pipelineReqOk_60 _)
  unfold method2 at h
  cases hp : netResp w <;> rw [hp] at h
  · injection h with h1 h2; subst h2
    exact step1 hq
  · simp only at h
    cases hp2 : netResp (netNext (viewPageReq fid) w) <;> rw [hp2] at h
    · injection h with h1 h2; subst h2
      exact step2 _ hq
    · simp only at h
      split at h <;> (injection h with h1 h2; subst h2; exact step2 _ (by simpa using hq))

theorem method3_log {fid fp : String} {w w' : World} {o : Option String} {q : NetRequest}
    (h : method3 fid fp w = (o, w')) (hq : q ∈ w'.log) :
    q ∈ w.log ∨ pipelineReqOk q := by
  have step : q ∈ (netNext (method3Req fid) w).log → q ∈ w.log ∨ pipelineReqOk q := by
    intro hq1
    rcases mem_log_netNext hq1 with h1 | h1
    · exact Or.inl h1
    · subst h1; exact Or.inr (pipelineReqOk_60 _)
  unfold method3 at h
  cases hp : netResp w <;> rw [hp] at h
  · injection h with h1 h2; subst h2
    exact step hq
  · simp only at h
    split at h <;> (injection h with h1 h2; subst h2; exact step (by simpa using hq))

theorem downloadWithDirectMethods_log {fid fp : String} {w w' : World} {o : Option String}
    {q : NetRequest} (h : downloadWithDirectMethods fid fp w = (o, w')) (hq : q ∈ w'.log) :
    q ∈ w.log ∨ pipelineReqOk q := by
  unfold downloadWithDirectMethods at h
  rcases h1 : method1 fid fp w with ⟨o1, w1⟩
  rw [h1] at h
  cases o1 with
  | some r1 =>
    simp only at h
    injection h with ha hb; subst hb
    exact method1_log h1 hq
  | none =>
    simp only at h
    rcases h2 : method2 fid fp w1 with ⟨o2, w2⟩
    rw [h2] at h
    cases o2 with
    | some r2 =>
      simp only at h
      injection h with ha hb; subst hb
      rcases method2_log h2 hq with hM | hM
      · exact method1_log h1 hM
      · exact Or.inr hM
    | none =>
      simp only at h
      rcases h3 : method3 fid fp w2 with ⟨o3, w3⟩
      rw [h3] at h
      cases o3 with
      | some r3 =>
        simp only at h
        injection h with ha hb; subst hb
        rcases method3_log h3 hq with hM | hM
        · rcases method2_log h2 hM with hN | hN
          · exact method1_log h1 hN
          · exact Or.inr hN
        · exact Or.inr hM
      | none =>
        simp only at h
        injection h with ha hb; subst hb
        rcases method3_log h3 (by simpa using hq) with hM | hM
        · rcases method2_log h2 hM with hN | hN
          · exact method1_log h1 hN
          · exact Or.inr hN
        · exact Or.inr hM

theorem driveApproach_log {cfg : Cfg} {fp : String} {w w' : World} {b : Bool}
    (h : driveApproach cfg fp w = (b, w')) : w'.log = w.log := by
  unfold driveApproach at h
  split at h
  · cases hx : extResp w <;> rw [hx] at h <;>
      (injection h with h1 h2; subst h2; simp)
  · injection h with h1 h2; subst h2; rfl

theorem downloadDriveFile_log {cfg : Cfg} {fid fp : String} {w w' : World} {o : Option String}
    {q : NetRequest} (h : downloadDriveFile cfg fid fp w = (o, w')) (hq : q ∈ w'.log) :
    q ∈ w.log ∨ pipelineReqOk q := by
  unfold downloadDriveFile at h
  rcases ha1 : driveApproach cfg fp w with ⟨ok1, w1⟩
  rw [ha1] at h
  simp only at h
  split at h
  · injection h with h1 h2; subst h2
    rw [driveApproach_log ha1] at hq
    exact Or.inl hq
  · rcases ha2 : driveApproach cfg fp w1 with ⟨ok2, w2⟩
    rw [ha2] at h
    simp only at h
    have hw2 : w2.log = w.log := by rw [driveApproach_log ha2, driveApproach_log ha1]
    split at h
    · injection h with h1 h2; subst h2
      rw [hw2] at hq
      exact Or.inl hq
    · rcases hd1 : downloadWithDirectMethods fid fp w2 with ⟨o3, w3⟩
      rw [hd1] at h
      cases o3 with
      | some r3 =>
        simp only at h
        injection h with h1 h2; subst h2
        rcases downloadWithDirectMethods_log hd1 hq with hM | hM
        · rw [hw2] at hM; exact Or.inl hM
        · exact Or.inr hM
      | none =>
        simp only at h
        rcases hd2 : downloadWithDirectMethods fid fp w3 with ⟨o4, w4⟩
        rw [hd2] at h
        have tail : q ∈ w4.log → q ∈ w.log ∨ pipelineReqOk q := by
          intro hq4
          rcases downloadWithDirectMethods_log hd2 hq4 with hM | hM
          · rcases downloadWithDirectMethods_log hd1 hM with hN | hN
            · rw [hw2] at hN; exact Or.inl hN
            · exact Or.inr hN
          · exact Or.inr hM
        cases o4 with
        | some r4 =>
          simp only at h
          injection h with h1 h2; subst h2
          exact tail hq
        | none =>
          simp only at h
          injection h with h1 h2; subst h2
          exact tail (by simpa using hq)

theorem tryImageUrls_log {fp : String} {us : List String} {w w' : World} {o : Option String}
    {q : NetRequest} (h : tryImageUrls fp us w = (o, w')) (hq : q ∈ w'.log) :
    q ∈ w.log ∨ pipelineReqOk q := by
  induction us generalizing w with
  | nil =>
    unfold tryImageUrls at h
    injection h with h1 h2; subst h2
    exact Or.inl hq
  | cons u rest ih =>
    unfold tryImageUrls at h
    have step : ∀ hx : q ∈ (netNext (imageReq u) w).log, q ∈ w.log ∨ pipelineReqOk q := by
      intro hx
      rcases mem_log_netNext hx with h1 | h1
      · exact Or.inl h1
      · subst h1; exact Or.inr (pipelineReqOk_30 _)
    have tail : ∀ {w2 : World}, tryImageUrls fp rest w2 = (o, w') →
        w2.log = (netNext (imageReq u) w).log → q ∈ w.log ∨ pipelineReqOk q := by
      intro w2 h2 hlog
      rcases ih h2 with hM | hM
      · rw [hlog] at hM
        exact step hM
      · exact Or.inr hM
    cases hp : netResp w <;> rw [hp] at h
    · exact tail h rfl
    · simp only at h
      split at h
      · exact tail h rfl
      · split at h
        · split at h
          · injection h with h1 h2; subst h2
            exact step (by simpa using hq)
          · exact tail h (by simp)
        · exact tail h (by simp)

theorem imageCookie_log {fid fp : String} {w w' : World} {o : Option String}
    {q : NetRequest} (h : imageCookie fid fp w = (o, w')) (hq : q ∈ w'.log) :
    q ∈ w.log ∨ pipelineReqOk q := by
  have step1 : q ∈ (netNext (viewPageReq fid) w).log → q ∈ w.log ∨ pipelineReqOk q := by
    intro hq1
    rcases mem_log_netNext hq1 with h1 | h1
    · exact Or.inl h1
    · subst h1; exact Or.inr (pipelineReqOk_view _)
  have step2 : q ∈ (netNext (imageCookieReq fid) (netNext (viewPageReq fid) w)).log →
      q ∈ w.log ∨ pipelineReqOk q := by
    intro hq1
    rcases mem_log_netNext hq1 with h1 | h1
    · exact step1 h1
    · subst h1; exact Or.inr (pipelineReqOk_30 _)
  unfold imageCookie at h
  cases hp : netResp w <;> rw [hp] at h
  · injection h with h1 h2; subst h2
    exact step1 hq
  · simp only at h
    cases hp2 : netResp (netNext (viewPageReq fid) w) <;> rw [hp2] at h
    · injection h with h1 h2; subst h2
      exact step2 hq
    · simp only at h
      split at h
      · injection h with h1 h2; subst h2
        exact step2 hq
      · split at h <;> (injection h with h1 h2; subst h2; exact step2 (by simpa using hq))

theorem tryAltExts_log {fid fp : String} {es : List String} {w w' : World} {o : Option String}
    {q : NetRequest} (h : tryAltExts fid fp es w = (o, w')) (hq : q ∈ w'.log) :
    q ∈ w.log ∨ pipelineReqOk q := by
  induction es generalizing w with
  | nil =>
    unfold tryAltExts at h
    injection h with h1 h2; subst h2
    exact Or.inl hq
  | cons e rest ih =>
    unfold tryAltExts at h
    have step : ∀ hx : q ∈ (netNext (altExtReq fid) w).log, q ∈ w.log ∨ pipelineReqOk q := by
      intro hx
      rcases mem_log_netNext hx with h1 | h1
      · exact Or.inl h1
      · subst h1; exact Or.inr (pipelineReqOk_30 _)
    cases hp : netResp w <;> rw [hp] at h
    · rcases ih h with hM | hM
      · exact step hM
      · exact Or.inr hM
    · simp only at h
      split at h
      · injection h with h1 h2; subst h2
        have hlq : q ∈ (netNext (altExtReq fid) w).log := by
          revert hq
          split <;> (intro hq; simpa using hq)
        exact step hlq
      · rcases ih h with hM | hM
        · exact step (by simpa using hM)
        · exact Or.inr hM

theorem downloadDriveImage_log {cfg : Cfg} {fid fp : String} {w w' : World} {o : Option String}
    {q : NetRequest} (h : downloadDriveImage cfg fid fp w = (o, w')) (hq : q ∈ w'.log) :
    q ∈ w.log ∨ pipelineReqOk q := by
  unfold downloadDriveImage at h
  rcases h1 : tryImageUrls fp (imageUrls fid w.now) w with ⟨o1, w1⟩
  rw [h1] at h
  cases o1 with
  | some r1 =>
    simp only at h
    injection h with ha hb; subst hb
    exact tryImageUrls_log h1 hq
  | none =>
    simp only at h
    rcases h2 : imageCookie fid fp w1 with ⟨o2, w2⟩
    rw [h2] at h
    have lift1 : q ∈ w1.log → q ∈ w.log ∨ pipelineReqOk q := tryImageUrls_log h1
    cases o2 with
    | some r2 =>
      simp only at h
      injection h with ha hb; subst hb
      rcases imageCookie_log h2 hq with hM | hM
      · exact lift1 hM
      · exact Or.inr hM
    | none =>
      simp only at h
      rcases h3 : tryAltExts fid fp [".jpg", ".png", ".jpeg"] w2 with ⟨o3, w3⟩
      rw [h3] at h
      have lift2 : q ∈ w2.log → q ∈ w.log ∨ pipelineReqOk q := by
        intro hx
        rcases imageCookie_log h2 hx with hM | hM
        · exact lift1 hM
        · exact Or.inr hM
      cases o3 with
      | some r3 =>
        simp only at h
        injection h with ha hb; subst hb
        rcases tryAltExts_log h3 hq with hM | hM
        · exact lift2 hM
        · exact Or.inr hM
      | none =>
        simp only at h
        rcases h4 : downloadDriveFile cfg fid fp w3 with ⟨o4, w4⟩
        rw [h4] at h
        have lift3 : q ∈ w3.log → q ∈ w.log ∨ pipelineReqOk q := by
          intro hx
          rcases tryAltExts_log h3 hx with hM | hM
          · exact lift2 hM
          · exact Or.inr hM
        have lift4 : q ∈ w4.log → q ∈ w.log ∨ pipelineReqOk q := by
          intro hx
          rcases downloadDriveFile_log h4 hx with hM | hM
          · exact lift3 hM
          · exact Or.inr hM
        cases o4 with
        | some r4 =>
          simp only at h
          injection h with ha hb; subst hb
          exact lift4 hq
        | none =>
          simp only at h
          injection h with ha hb; subst hb
          exact lift4 (by simpa using hq)

theorem genericDownload_log {url fp : String} {w w' : World} {o : Option String}
    {q : NetRequest} (h : genericDownload url fp w = (o, w')) (hq : q ∈ w'.log) :
    q ∈ w.log ∨ pipelineReqOk q := by
  have step : q ∈ (netNext (genericGetReq url) w).log → q ∈ w.log ∨ pipelineReqOk q := by
    intro hq1
    rcases mem_log_netNext hq1 with h1 | h1
    · exact Or.inl h1
    · subst h1; exact Or.inr (pipelineReqOk_30 _)
  unfold genericDownload at h
  cases hp : netResp w <;> rw [hp] at h
  · injection h with h1 h2; subst h2
    exact step hq
  · simp only at h
    split at h <;> (injection h with h1 h2; subst h2; exact step (by simpa using hq))

theorem driveDispatch_log {cfg : Cfg} {fid fp : String} {w w' : World} {o : Option String}
    {q : NetRequest} (h : driveDispatch cfg fid fp w = (o, w')) (hq : q ∈ w'.log) :
    q ∈ w.log ∨ pipelineReqOk q := by
  unfold driveDispatch at h
  split at h
  · exact downloadDriveImage_log h hq
  · exact downloadDriveFile_log h hq

theorem downloadFile_log {cfg : Cfg} {url fp : String} {w w' : World} {o : Option String}
    {q : NetRequest} (h : downloadFile cfg url fp w = (o, w')) (hq : q ∈ w'.log) :
    q ∈ w.log ∨ pipelineReqOk q := by
  unfold downloadFile at h
  cases hf : extractFileId url <;> rw [hf] at h
  · exact genericDownload_log h hq
  · simp only at h
    split at h
    · split at h
      · exact downloadDriveImage_log h hq
      · exact downloadDriveFile_log h hq
    · exact genericDownload_log h hq

theorem directDownload_log {cfg : Cfg} {url fp : String} {w w' : World} {o : Option String}
    {q : NetRequest} (h : directDownload cfg url fp w = (o, w')) (hq : q ∈ w'.log) :
    q ∈ w.log ∨ pipelineReqOk q := by
  have step : q ∈ (netNext (directReq url) w).log → q ∈ w.log ∨ pipelineReqOk q := by
    intro hq1
    rcases mem_log_netNext hq1 with h1 | h1
    · exact Or.inl h1
    · subst h1; exact Or.inr (pipelineReqOk_30 _)
  have liftD : ∀ {wa wb : World} {oa : Option String} {fid : String},
      driveDispatch cfg fid fp wa = (oa, wb) →
      (q ∈ wa.log → q ∈ w.log ∨ pipelineReqOk q) →
      q ∈ wb.log → q ∈ w.log ∨ pipelineReqOk q := by
    intro wa wb oa fid hD hlift hx
    rcases driveDispatch_log hD hx with hM | hM
    · exact hlift hM
    · exact Or.inr hM
  unfold directDownload at h
  cases hp : netResp w <;> rw [hp] at h
  · simp only at h
    cases hg : googleFid url <;> rw [hg] at h
    · injection h with h1 h2; subst h2
      exact step hq
    · exact liftD h step hq
  · simp only at h
    split at h
    · cases hg : googleFid url <;> rw [hg] at h
      · injection h with h1 h2; subst h2
        exact step hq
      · simp only at h
        rcases hd1 : driveDispatch cfg _ fp (netNext (directReq url) w) with ⟨o1, w1⟩
        rw [hd1] at h
        cases o1 with
        | some r1 =>
          simp only at h
          injection h with h1 h2; subst h2
          exact liftD hd1 step hq
        | none =>
          simp only at h
          exact liftD h (liftD hd1 step) hq
    · split at h
      · injection h with h1 h2; subst h2
        exact step (by simpa using hq)
      · cases hg : googleFid url <;> rw [hg] at h
        · injection h with h1 h2; subst h2
          exact step (by simpa using hq)
        · exact liftD h (fun hx => step (by simpa using hx)) hq

theorem retrieveNotionFile_log {url : String} {w w' : World} {o : Option Payload}
    {q : NetRequest} (h : retrieveNotionFile url w = (o, w')) (hq : q ∈ w'.log) :
    q ∈ w.log ∨ pipelineReqOk q := by
  have step : q ∈ (netNext (notionFileReq url) w).log → q ∈ w.log ∨ pipelineReqOk q := by
    intro hq1
    rcases mem_log_netNext hq1 with h1 | h1
    · exact Or.inl h1
    · subst h1; exact Or.inr (pipelineReqOk_30 _)
  unfold retrieveNotionFile at h
  split at h
  · injection h with h1 h2; subst h2
    exact Or.inl hq
  · cases hp : netResp w <;> rw [hp] at h <;>
      (injection h with h1 h2; subst h2; exact step hq)

theorem lastResortAttempt_log {url lp : String} {w w' : World} {b : Bool}
    {q : NetRequest} (h : lastResortAttempt url lp w = (b, w')) (hq : q ∈ w'.log) :
    q ∈ w.log ∨ pipelineReqOk q := by
  have step : q ∈ (netNext (lastResortReq url) w).log → q ∈ w.log ∨ pipelineReqOk q := by
    intro hq1
    rcases mem_log_netNext hq1 with h1 | h1
    · exact Or.inl h1
    · subst h1; exact Or.inr (pipelineReqOk_30 _)
  unfold lastResortAttempt at h
  cases hp : netResp w <;> rw [hp] at h
  · injection h with h1 h2; subst h2
    exact step hq
  · simp only at h
    split at h
    · injection h with h1 h2; subst h2
      exact step hq
    · split at h <;> (injection h with h1 h2; subst h2; exact step (by simpa using hq))

theorem notionAlternative_log {cfg : Cfg} {url lp : String} {w w' : World} {b : Bool}
    {q : NetRequest} (h : notionAlternative cfg url lp w = (b, w')) (hq : q ∈ w'.log) :
    q ∈ w.log ∨ pipelineReqOk q := by
  unfold notionAlternative at h
  split at h
  · rcases hn : retrieveNotionFile url w with ⟨on1, wn⟩
    rw [hn] at h
    cases on1 with
    | some p =>
      simp only at h
      split at h
      · injection h with h1 h2
        subst h2
        exact retrieveNotionFile_log hn (by simpa using hq)
      · injection h with h1 h2
        subst h2
        exact retrieveNotionFile_log hn hq
    | none =>
      simp only at h
      injection h with h1 h2; subst h2
      exact retrieveNotionFile_log hn hq
  · injection h with h1 h2; subst h2
    exact Or.inl hq

theorem driveAlternative_log {cfg : Cfg} {url lp : String} {w w' : World} {b : Bool}
    {q : NetRequest} (h : driveAlternative cfg url lp w = (b, w')) (hq : q ∈ w'.log) :
    q ∈ w.log ∨ pipelineReqOk q := by
  unfold driveAlternative at h
  cases hf : extractFileId url <;> rw [hf] at h
  · injection h with h1 h2; subst h2
    exact Or.inl hq
  · simp only at h
    split at h
    · rcases hd : downloadDriveImage cfg _ lp w with ⟨o1, w1⟩
      rw [hd] at h
      cases o1 <;> simp only at h <;> first
        | (injection h with h1 h2; subst h2; exact downloadDriveImage_log hd hq)
    · injection h with h1 h2; subst h2
      exact Or.inl hq

theorem imageAlternatives_log {cfg : Cfg} {url lp : String} {w w' : World} {b : Bool}
    {q : NetRequest} (h : imageAlternatives cfg url lp w = (b, w')) (hq : q ∈ w'.log) :
    q ∈ w.log ∨ pipelineReqOk q := by
  unfold imageAlternatives at h
  rcases h1 : notionAlternative cfg url lp w with ⟨s1, w1⟩
  rw [h1] at h
  cases s1 with
  | true =>
    simp only at h
    injection h with ha hb; subst hb
    exact notionAlternative_log h1 hq
  | false =>
    simp only at h
    rcases h2 : driveAlternative cfg url lp w1 with ⟨s2, w2⟩
    rw [h2] at h
    have lift1 : q ∈ w1.log → q ∈ w.log ∨ pipelineReqOk q := notionAlternative_log h1
    have lift2 : q ∈ w2.log → q ∈ w.log ∨ pipelineReqOk q := by
      intro hx
      rcases driveAlternative_log h2 hx with hM | hM
      · exact lift1 hM
      · exact Or.inr hM
    cases s2 with
    | true =>
      simp only at h
      injection h with ha hb; subst hb
      exact lift2 hq
    | false =>
      simp only at h
      rcases lastResortAttempt_log h hq with hM | hM
      · exact lift2 hM
      · exact Or.inr hM

theorem downloadAssetFresh_log {cfg : Cfg} {url : String} {ty : AssetType} {lp au : String}
    {w w' : World} {o : Option DlResult} {q : NetRequest}
    (h : downloadAssetFresh cfg url ty lp au w = (o, w')) (hq : q ∈ w'.log) :
    q ∈ w.log ∨ pipelineReqOk q := by
  unfold downloadAssetFresh at h
  cases ty with
  | image =>
    simp only at h
    rcases hd : directDownload cfg url lp w with ⟨o1, w1⟩
    rw [hd] at h
    have lift1 : q ∈ w1.log → q ∈ w.log ∨ pipelineReqOk q := directDownload_log hd
    cases o1 with
    | some r1 =>
      simp only at h
      split at h
      · injection h with ha hb; subst hb
        exact lift1 hq
      · rcases ha2 : imageAlternatives cfg url lp w1 with ⟨s2, w2⟩
        rw [ha2] at h
        have lift2 : q ∈ w2.log → q ∈ w.log ∨ pipelineReqOk q := by
          intro hx
          rcases imageAlternatives_log ha2 hx with hM | hM
          · exact lift1 hM
          · exact Or.inr hM
        cases s2 <;> (simp only at h; injection h with ha hb; subst hb; exact lift2 hq)
    | none =>
      simp only at h
      injection h with ha hb; subst hb
      exact lift1 hq
  | pdf =>
    simp only at h
    rcases hd : downloadFile cfg url lp w with ⟨o1, w1⟩
    rw [hd] at h
    cases o1 <;> simp only at h <;> first
      | (injection h with ha hb; subst hb; exact downloadFile_log hd hq)

theorem downloadAsset_log {cfg : Cfg} {url : String} {ty : AssetType} {nm : Option String}
    {w w' : World} {o : Option DlResult} {q : NetRequest}
    (h : downloadAsset cfg url ty nm w = (o, w')) (hq : q ∈ w'.log) :
    q ∈ w.log ∨ pipelineReqOk q := by
  unfold downloadAsset at h
  split at h
  · injection h with h1 h2; subst h2
    exact Or.inl hq
  · simp only at h
    split at h
    · split at h
      · injection h with h1 h2; subst h2
        exact Or.inl hq
      · rcases downloadAssetFresh_log h hq with hM | hM
        · simp only [log_eraseF] at hM
          exact Or.inl hM
        · exact Or.inr hM
    · exact downloadAssetFresh_log h hq

/-! ## Facts about preview generation -/

theorem convLoopV2_true {pv : String} {k : Nat} {w w' : World}
    (h : convLoopV2 pv k w = (true, w')) : 0 < sizeAt w' pv := by
  induction k generalizing w with
  | zero => simp [convLoopV2] at h
  | succ k ih =>
    unfold convLoopV2 at h
    cases hx : extResp w <;> rw [hx] at h <;> simp only at h
    · exact ih h
    · split at h
      · rename_i hcond
        injection h with h1 h2; subst h2
        simp only [Bool.and_eq_true, decide_eq_true_eq] at hcond
        exact hcond.2
      · exact ih h
    · split at h
      · rename_i hpos
        injection h with h1 h2; subst h2
        simpa using hpos
      · exact ih h

theorem createPdfPreviewV2_spec {pdfPath : String} {w : World}
    (hsrc : existsAt w pdfPath = true)
    (hpv : w.fs (previewPathOf pdfPath) = none) :
    (createPdfPreviewV2 pdfPath w).1 = some (getAppUrl (previewPathOf pdfPath))
      ∧ 0 < sizeAt (createPdfPreviewV2 pdfPath w).2 (previewPathOf pdfPath) := by
  unfold createPdfPreviewV2
  rw [hsrc]
  have hnex : existsAt w (previewPathOf pdfPath) = false := by
    simp [existsAt, hpv]
  simp only [Bool.not_true, Bool.false_eq_true, if_false, hnex]
  rcases hc : convLoopV2 (previewPathOf pdfPath) 4 w with ⟨b, w1⟩
  cases b with
  | true =>
    simp only
    exact ⟨trivial, convLoopV2_true hc⟩
  | false =>
    simp only
    refine ⟨trivial, ?_⟩
    simp [placeholderDataLength]

theorem createPdfPreviewV2_missing {pdfPath : String} {w : World}
    (hsrc : existsAt w pdfPath = false) :
    createPdfPreviewV2 pdfPath w = (none, w) := by
  unfold createPdfPreviewV2
  rw [hsrc]
  simp

/-! ## Facts about the sync pass -/

theorem tallyRecord_total (s : SyncStats) (o : RecordStep) :
    (tallyRecord s o).total = s.total + 1 := by
  cases o with
  | emptyTitle => simp [tallyRecord, SyncStats.total] <;> omega
  | throws => simp [tallyRecord, SyncStats.total] <;> omega
  | processed b => cases b <;> simp [tallyRecord, SyncStats.total] <;> omega
  | nullResult => simp [tallyRecord, SyncStats.total] <;> omega

theorem foldl_tallyRecord_total (os : List RecordStep) (s : SyncStats) :
    (os.foldl tallyRecord s).total = s.total + os.length := by
  induction os generalizing s with
  | nil => simp
  | cons o rest ih =>
    simp only [List.foldl_cons, List.length_cons]
    rw [ih, tallyRecord_total]
    omega

theorem runRecords_total (os : List RecordStep) :
    (runRecords os).total = os.length := by
  unfold runRecords
  rw [foldl_tallyRecord_total]
  simp [SyncStats.total]

/-! ## HTML-guard facts for the strategies that do check -/

theorem method1_html {fid fp : String} {p : Payload} {w : World}
    (hp : netResp w = some p) (hdoc : hasDoctype100 p = true) :
    method1 fid fp w = (none, netNext (method1Req fid) w) := by
  unfold method1
  rw [hp]
  simp only [hdoc, if_true]

theorem tryImageUrls_html {fp u : String} {rest : List String} {p : Payload} {w : World}
    (hp : netResp w = some p) (hh : htmlAny100 p = true) :
    tryImageUrls fp (u :: rest) w = tryImageUrls fp rest (netNext (imageReq u) w) := by
  conv_lhs => unfold tryImageUrls
  rw [hp]
  simp only [hh, if_true]

theorem directDownload_html {cfg : Cfg} {url fp : String} {p : Payload} {w : World}
    (hp : netResp w = some p) (hh : htmlAny100 p = true) (hg : googleFid url = none) :
    directDownload cfg url fp w = (none, netNext (directReq url) w) := by
  unfold directDownload
  rw [hp]
  simp only [hh, if_true, hg]

theorem lastResortAttempt_html {url lp : String} {p : Payload} {w : World}
    (hp : netResp w = some p) (hh : htmlAny100 p = true) :
    lastResortAttempt url lp w = (false, netNext (lastResortReq url) w) := by
  unfold lastResortAttempt
  rw [hp]
  simp only [hh, if_true]

theorem imageCookie_html {fid fp : String} {page p : Payload} {w : World}
    (h1 : netResp w = some page)
    (h2 : netResp (netNext (viewPageReq fid) w) = some p) (hh : htmlAny100 p = true) :
    imageCookie fid fp w
      = (none, netNext (imageCookieReq fid) (netNext (viewPageReq fid) w)) := by
  unfold imageCookie
  rw [h1]
  simp only
  rw [h2]
  simp only [hh, if_true]

/-- Method 2 performs no HTML check: any non-empty payload — HTML included —
is written and reported as success. -/
theorem method2_no_html_check {fid fp : String} {page p : Payload} {w : World}
    (h1 : netResp w = some page)
    (h2 : netResp (netNext (viewPageReq fid) w) = some p) (hlen : 0 < p.length) :
    method2 fid fp w
      = (some fp, writeF (netNext (method2Req fid (extractConfirmTok page))
          (netNext (viewPageReq fid) w)) fp p.length) := by
  unfold method2
  rw [h1]
  simp only
  rw [h2]
  simp only [if_pos hlen]

/-- Method 3 performs no HTML check: any non-empty payload — HTML included —
is written and reported as success. -/
theorem method3_no_html_check {fid fp : String} {p : Payload} {w : World}
    (hp : netResp w = some p) (hlen : 0 < p.length) :
    method3 fid fp w
      = (some fp, writeF (netNext (method3Req fid) w) fp p.length) := by
  unfold method3
  rw [hp]
  simp only [if_pos hlen]

/-- The generic GET of `downloadFile` performs no HTML check: any non-empty
payload — HTML included — is written and reported as success. -/
theorem genericDownload_no_html_check {url fp : String} {p : Payload} {w : World}
    (hp : netResp w = some p) (hlen : 0 < p.length) :
    genericDownload url fp w
      = (some fp, writeF (netNext (genericGetReq url) w) fp p.length) := by
  unfold genericDownload
  rw [hp]
  simp only [if_pos hlen]

/-- The generic branch of `downloadFile` always issues exactly one request. -/
theorem genericDownload_logEq (url fp : String) (w : World) :
    (genericDownload url fp w).2.log = w.log ++ [genericGetReq url] := by
  unfold genericDownload
  cases hp : netResp w
  · rfl
  · simp only
    split <;> rfl

/-! ## Concrete worlds used to instantiate the theorems -/

/-- The empty file store. -/
def emptyFs : String → Option Nat := fun _ => none

/-- A file store holding one file of `n` bytes at `p`. -/
def singleFileFs (p : String) (n : Nat) : String → Option Nat :=
  fun q => if q = p then some n else none

/-- A world with no files and a given network trace. -/
def worldWithNet (net : List (Option Payload)) : World :=
  ⟨emptyFs, net, [], [], 0, 0⟩

/-- A world holding one file and nothing pending. -/
def worldWithFile (p : String) (n : Nat) : World :=
  ⟨singleFileFs p n, [], [], [], 0, 0⟩

/-! ## The claims -/

/-- Claim C1: when a file already exists at the deterministically derived local
target path with non-zero size, `downloadAsset` returns the corresponding
LocalAsset (the derived `app://` URL and that local path) immediately with the
world unchanged — no network request — and therefore resolving the same
reference a second time after a successful first resolution is a pure read:
it returns the same result and changes nothing. -/
theorem c1_cached_asset_short_circuit_and_idempotence :
    (∀ (cfg : Cfg) (url : String) (ty : AssetType) (n : String) (w : World) (k : Nat),
      url.isEmpty = false →
      w.fs (assetLocalPath url ty (some n) w) = some k → 0 < k →
      downloadAsset cfg url ty (some n) w
        = (some ⟨assetAppUrl url ty (some n) w, assetLocalPath url ty (some n) w⟩, w))
    ∧ (∀ (cfg : Cfg) (url : String) (ty : AssetType) (n : String) (w : World),
      (downloadAsset cfg url ty (some n) w).1.isSome = true →
      downloadAsset cfg url ty (some n) ((downloadAsset cfg url ty (some n) w).2)
        = downloadAsset cfg url ty (some n) w) := by
  constructor
  · intro cfg url ty n w k hu hfs hk
    have hex : existsAt w (assetLocalPath url ty (some n) w) = true := by
      simp [existsAt, hfs]
    have hsz : 0 < sizeAt w (assetLocalPath url ty (some n) w) := by
      simpa [sizeAt, hfs] using hk
    simp only [assetLocalPath, assetAppUrl, assetFilename_some] at hex hsz ⊢
    unfold downloadAsset
    rw [hu]
    simp only [Bool.false_eq_true, if_false, assetFilename_some, hex, if_true, hsz]
  · intro cfg url ty n w h
    exact downloadAsset_idem h

/-- Witness for C1 at concrete inputs: a cached non-empty file short-circuits,
and a successful fresh image resolution is idempotent. -/
theorem c1_witness :
    ((worldWithFile "/userData/downloads/images/sku1.png" 5).fs
        (assetLocalPath "https://example.com/pic.png" .image (some "sku1")
          (worldWithFile "/userData/downloads/images/sku1.png" 5)) = some 5
      ∧ downloadAsset ⟨false, false⟩ "https://example.com/pic.png" .image (some "sku1")
          (worldWithFile "/userData/downloads/images/sku1.png" 5)
        = (some ⟨assetAppUrl "https://example.com/pic.png" .image (some "sku1")
              (worldWithFile "/userData/downloads/images/sku1.png" 5),
            assetLocalPath "https://example.com/pic.png" .image (some "sku1")
              (worldWithFile "/userData/downloads/images/sku1.png" 5)⟩,
            worldWithFile "/userData/downloads/images/sku1.png" 5))
    ∧ ((downloadAsset ⟨false, false⟩ "https://example.com/pic.png" .image (some "sku1")
          (worldWithNet [some ['x']])).1.isSome = true
      ∧ downloadAsset ⟨false, false⟩ "https://example.com/pic.png" .image (some "sku1")
          ((downloadAsset ⟨false, false⟩ "https://example.com/pic.png" .image (some "sku1")
            (worldWithNet [some ['x']])).2)
        = downloadAsset ⟨false, false⟩ "https://example.com/pic.png" .image (some "sku1")
            (worldWithNet [some ['x']])) := by
  refine ⟨⟨by decide, ?_⟩, ⟨by decide, ?_⟩⟩
  · exact c1_cached_asset_short_circuit_and_idempotence.1 _ _ _ _ _ 5
      (by decide) (by decide) (by decide)
  · exact c1_cached_asset_short_circuit_and_idempotence.2 _ _ _ _ _ (by decide)

/-- Claim C2 counterexample: Method 3 of `downloadWithDirectMethods` treats a
payload that literally begins with `<html` as a successful download — it
performs no HTML check at all, so the claim that every transport attempt
rejects HTML payloads is false on the code. -/
theorem c2_counterexample :
    leadsWith "<html".toList "<html><head></head><body>hi</body></html>".toList = true
    ∧ htmlAny100 "<html><head></head><body>hi</body></html>".toList = true
    ∧ (method3 "FID" "/userData/downloads/pdfs/a.pdf"
        (worldWithNet [some "<html><head></head><body>hi</body></html>".toList])).1
      = some "/userData/downloads/pdfs/a.pdf" := by decide

/-- Claim C2, amended: the HTML guard holds exactly for the attempts that
implement it — Method 1 of the direct methods (which checks only
`<!doctype html>`), each per-URL Drive-image attempt, the image cookie
attempt, `directDownload` on non-Google URLs, and the last-resort fetch of
`downloadAsset` — while the cookie-bypass (Method 2), the Drive-API fetch
(Method 3) and the generic `downloadFile` GET perform no HTML check and
report success for any non-empty payload, HTML included. -/
theorem c2_amended_html_guard :
    (∀ (fid fp : String) (p : Payload) (w : World), netResp w = some p →
      hasDoctype100 p = true → method1 fid fp w = (none, netNext (method1Req fid) w))
    ∧ (∀ (fp u : String) (rest : List String) (p : Payload) (w : World),
      netResp w = some p → htmlAny100 p = true →
      tryImageUrls fp (u :: rest) w = tryImageUrls fp rest (netNext (imageReq u) w))
    ∧ (∀ (fid fp : String) (page p : Payload) (w : World), netResp w = some page →
      netResp (netNext (viewPageReq fid) w) = some p → htmlAny100 p = true →
      imageCookie fid fp w
        = (none, netNext (imageCookieReq fid) (netNext (viewPageReq fid) w)))
    ∧ (∀ (cfg : Cfg) (url fp : String) (p : Payload) (w : World), netResp w = some p →
      htmlAny100 p = true → googleFid url = none →
      directDownload cfg url fp w = (none, netNext (directReq url) w))
    ∧ (∀ (url lp : String) (p : Payload) (w : World), netResp w = some p →
      htmlAny100 p = true →
      lastResortAttempt url lp w = (false, netNext (lastResortReq url) w))
    ∧ (∀ (fid fp : String) (page p : Payload) (w : World), netResp w = some page →
      netResp (netNext (viewPageReq fid) w) = some p → 0 < p.length →
      method2 fid fp w
        = (some fp, writeF (netNext (method2Req fid (extractConfirmTok page))
            (netNext (viewPageReq fid) w)) fp p.length))
    ∧ (∀ (fid fp : String) (p : Payload) (w : World), netResp w = some p →
      0 < p.length →
      method3 fid fp w = (some fp, writeF (netNext (method3Req fid) w) fp p.length))
    ∧ (∀ (url fp : String) (p : Payload) (w : World), netResp w = some p →
      0 < p.length →
      genericDownload url fp w
        = (some fp, writeF (netNext (genericGetReq url) w) fp p.length)) :=
  ⟨fun _ _ _ _ hp hd => method1_html hp hd,
   fun _ _ _ _ _ hp hh => tryImageUrls_html hp hh,
   fun _ _ _ _ _ h1 h2 hh => imageCookie_html h1 h2 hh,
   fun _ _ _ _ _ hp hh hg => directDownload_html hp hh hg,
   fun _ _ _ _ hp hh => lastResortAttempt_html hp hh,
   fun _ _ _ _ _ h1 h2 hlen => method2_no_html_check h1 h2 hlen,
   fun _ _ _ _ hp hlen => method3_no_html_check hp hlen,
   fun _ _ _ _ hp hlen => genericDownload_no_html_check hp hlen⟩

/-- Witness for the amended C2 at concrete HTML payloads: the five guarded
attempts reject them, and Method 2, Method 3 and the generic GET succeed on
the very same HTML payload. -/
theorem c2_witness :
    (netResp (worldWithNet [some "<!doctype html><body></body>".toList])
        = some "<!doctype html><body></body>".toList
      ∧ hasDoctype100 "<!doctype html><body></body>".toList = true
      ∧ htmlAny100 "<!doctype html><body></body>".toList = true
      ∧ googleFid "https://example.com/a.png" = none
      ∧ 0 < "<!doctype html><body></body>".toList.length)
    ∧ method1 "F" "/userData/downloads/pdfs/a.pdf"
        (worldWithNet [some "<!doctype html><body></body>".toList])
      = (none, netNext (method1Req "F")
          (worldWithNet [some "<!doctype html><body></body>".toList]))
    ∧ tryImageUrls "/userData/downloads/images/a.png" ["u1"]
        (worldWithNet [some "<!doctype html><body></body>".toList])
      = tryImageUrls "/userData/downloads/images/a.png" []
          (netNext (imageReq "u1") (worldWithNet [some "<!doctype html><body></body>".toList]))
    ∧ imageCookie "F" "/userData/downloads/images/a.png"
        (worldWithNet [some ['x'], some "<!doctype html><body></body>".toList])
      = (none, netNext (imageCookieReq "F") (netNext (viewPageReq "F")
          (worldWithNet [some ['x'], some "<!doctype html><body></body>".toList])))
    ∧ directDownload ⟨false, false⟩ "https://example.com/a.png"
        "/userData/downloads/images/a.png"
        (worldWithNet [some "<!doctype html><body></body>".toList])
      = (none, netNext (directReq "https://example.com/a.png")
          (worldWithNet [some "<!doctype html><body></body>".toList]))
    ∧ lastResortAttempt "https://example.com/a.png" "/userData/downloads/images/a.png"
        (worldWithNet [some "<!doctype html><body></body>".toList])
      = (false, netNext (lastResortReq "https://example.com/a.png")
          (worldWithNet [some "<!doctype html><body></body>".toList]))
    ∧ method2 "F" "/userData/downloads/pdfs/a.pdf"
        (worldWithNet [some ['x'], some "<!doctype html><body></body>".toList])
      = (some "/userData/downloads/pdfs/a.pdf",
          writeF (netNext (method2Req "F" (extractConfirmTok ['x']))
            (netNext (viewPageReq "F")
              (worldWithNet [some ['x'], some "<!doctype html><body></body>".toList])))
            "/userData/downloads/pdfs/a.pdf" "<!doctype html><body></body>".toList.length)
    ∧ method3 "F" "/userData/downloads/pdfs/a.pdf"
        (worldWithNet [some "<!doctype html><body></body>".toList])
      = (some "/userData/downloads/pdfs/a.pdf",
          writeF (netNext (method3Req "F")
              (worldWithNet [some "<!doctype html><body></body>".toList]))
            "/userData/downloads/pdfs/a.pdf" "<!doctype html><body></body>".toList.length)
    ∧ genericDownload "https://example.com/a.png" "/userData/downloads/images/a.png"
        (worldWithNet [some "<!doctype html><body></body>".toList])
      = (some "/userData/downloads/images/a.png",
          writeF (netNext (genericGetReq "https://example.com/a.png")
              (worldWithNet [some "<!doctype html><body></body>".toList]))
            "/userData/downloads/images/a.png"
            "<!doctype html><body></body>".toList.length) := by
  refine ⟨⟨by decide, by decide, by decide, by decide, by decide⟩,
    ?_, ?_, ?_, ?_, ?_, ?_, ?_, ?_⟩
  · exact c2_amended_html_guard.1 "F" "/userData/downloads/pdfs/a.pdf"
      "<!doctype html><body></body>".toList _ (by decide) (by decide)
  · exact c2_amended_html_guard.2.1 "/userData/downloads/images/a.png" "u1" []
      "<!doctype html><body></body>".toList _ (by decide) (by decide)
  · exact c2_amended_html_guard.2.2.1 "F" "/userData/downloads/images/a.png"
      ['x'] "<!doctype html><body></body>".toList _ (by decide) (by decide) (by decide)
  · exact c2_amended_html_guard.2.2.2.1 ⟨false, false⟩ "https://example.com/a.png"
      "/userData/downloads/images/a.png" "<!doctype html><body></body>".toList _
      (by decide) (by decide) (by decide)
  · exact c2_amended_html_guard.2.2.2.2.1 "https://example.com/a.png"
      "/userData/downloads/images/a.png" "<!doctype html><body></body>".toList _
      (by decide) (by decide)
  · exact c2_amended_html_guard.2.2.2.2.2.1 "F" "/userData/downloads/pdfs/a.pdf"
      ['x'] "<!doctype html><body></body>".toList _ (by decide) (by decide) (by decide)
  · exact c2_amended_html_guard.2.2.2.2.2.2.1 "F" "/userData/downloads/pdfs/a.pdf"
      "<!doctype html><body></body>".toList _ (by decide) (by decide)
  · exact c2_amended_html_guard.2.2.2.2.2.2.2 "https://example.com/a.png"
      "/userData/downloads/images/a.png" "<!doctype html><body></body>".toList _
      (by decide) (by decide)

/-- Claim C3 counterexample: a non-Drive PDF resolution whose single generic
GET fails leaves no file at the target path — the failed resolution ends with
nothing on disk, so the placeholder guarantee is false on the code. -/
theorem c3_counterexample :
    (downloadAsset ⟨false, false⟩ "https://example.com/file.pdf" .pdf (some "s1")
        (worldWithNet [none])).1 = none
    ∧ assetLocalPath "https://example.com/file.pdf" .pdf (some "s1") (worldWithNet [none])
      = "/userData/downloads/pdfs/s1.pdf"
    ∧ (downloadAsset ⟨false, false⟩ "https://example.com/file.pdf" .pdf (some "s1")
        (worldWithNet [none])).2.fs "/userData/downloads/pdfs/s1.pdf" = none := by decide

/-- Claim C3, amended: the placeholder guarantee holds on the Drive strategy
chain — when `downloadWithDirectMethods` or `downloadDriveFile` fails as a
whole, a zero-length placeholder file exists at the target path — but the
generic non-Drive path writes no placeholder on failure. -/
theorem c3_amended_drive_placeholder :
    (∀ (fid fp : String) (w w' : World) (o : Option String),
      downloadWithDirectMethods fid fp w = (o, w') → o = none → w'.fs fp = some 0)
    ∧ (∀ (cfg : Cfg) (fid fp : String) (w w' : World),
      downloadDriveFile cfg fid fp w = (none, w') → w'.fs fp = some 0) :=
  ⟨fun _ _ _ _ _ h ho => downloadWithDirectMethods_failure h ho,
   fun _ _ _ _ _ h => downloadDriveFile_failure h⟩

/-- Witness for the amended C3: a fully failing Drive download leaves a
zero-length placeholder. -/
theorem c3_witness :
    (downloadDriveFile ⟨false, false⟩ "F" "/userData/downloads/pdfs/a.pdf"
        (worldWithNet [])).1 = none
    ∧ (downloadDriveFile ⟨false, false⟩ "F" "/userData/downloads/pdfs/a.pdf"
        (worldWithNet [])).2.fs "/userData/downloads/pdfs/a.pdf" = some 0 := by
  have h1 : (downloadDriveFile ⟨false, false⟩ "F" "/userData/downloads/pdfs/a.pdf"
      (worldWithNet [])).1 = none := by decide
  have he : downloadDriveFile ⟨false, false⟩ "F" "/userData/downloads/pdfs/a.pdf"
      (worldWithNet [])
      = (none, (downloadDriveFile ⟨false, false⟩ "F" "/userData/downloads/pdfs/a.pdf"
          (worldWithNet [])).2) := by
    rw [← h1]
  exact ⟨h1, c3_amended_drive_placeholder.2 _ _ _ _ _ he⟩

/-- Claim C4 counterexample: when the Notion database query fails, the sync
pass does not abort with `{success: false}` — `queryNotionDatabase` swallows
the error into an empty listing and the pass reports success with an all-zero
report. -/
theorem c4_counterexample :
    syncWithNotion true QueryOutcome.netError
      = ⟨true, "Sync completed: 0 created, 0 updated, 0 skipped, 0 errors"⟩
    ∧ (syncWithNotion true QueryOutcome.netError).success = true := by decide

/-- Claim C4, amended: every failure of the record-listing query (network
error, API error object, missing results) is swallowed into an empty listing
and the pass completes with `success: true` and a zero-count report;
`{success: false, message}` is returned when the Notion settings are missing. -/
theorem c4_amended_fetch_failure_swallowed :
    (syncWithNotion true .netError = ⟨true, syncMessage (runRecords [])⟩
      ∧ syncWithNotion true .apiError = ⟨true, syncMessage (runRecords [])⟩
      ∧ syncWithNotion true .missingResults = ⟨true, syncMessage (runRecords [])⟩)
    ∧ ∀ q : QueryOutcome, syncWithNotion false q
        = ⟨false, "Notion settings not configured"⟩ :=
  ⟨⟨rfl, rfl, rfl⟩, fun _ => rfl⟩

/-- Claim C5: in the per-record loop of `syncWithNotion`, every record bumps
exactly one of the four counters, the loop never aborts (it is a total fold
over the listing), and the final report satisfies
`created + updated + skipped + errors = N`. -/
theorem c5_batch_resilience_counters :
    (∀ (s : SyncStats) (o : RecordStep), (tallyRecord s o).total = s.total + 1)
    ∧ ∀ os : List RecordStep, (runRecords os).total = os.length :=
  ⟨tallyRecord_total, runRecords_total⟩

/-- Claim C6: the file-ID extraction table — the three Drive URL shapes map to
the embedded ID and a plain non-Drive URL maps to `null`. -/
theorem c6_extract_file_id_table :
    extractFileId "https://drive.google.com/file/d/1A2B3C4D5E6F7G8H9I0J/view"
      = some "1A2B3C4D5E6F7G8H9I0J"
    ∧ extractFileId "https://drive.google.com/open?id=1A2B3C4D5E6F7G8H9I0J"
      = some "1A2B3C4D5E6F7G8H9I0J"
    ∧ extractFileId "https://docs.google.com/document/d/1A2B3C4D5E6F7G8H9I0J/edit"
      = some "1A2B3C4D5E6F7G8H9I0J"
    ∧ extractFileId "https://example.com/image.png" = none := by decide

/-- Claim C7 counterexample: the pdf-utils copy that relies on the bundled
placeholder file returns `null` for an existing non-empty source PDF when all
converters fail and that bundled placeholder is absent. -/
theorem c7_counterexample :
    existsAt (worldWithFile "/userData/downloads/pdfs/a.pdf" 7)
        "/userData/downloads/pdfs/a.pdf" = true
    ∧ 0 < sizeAt (worldWithFile "/userData/downloads/pdfs/a.pdf" 7)
        "/userData/downloads/pdfs/a.pdf"
    ∧ (createPdfPreviewV1 "/userData/downloads/pdfs/a.pdf"
        (worldWithFile "/userData/downloads/pdfs/a.pdf" 7)).1 = none := by decide

/-- Claim C7, amended: the embedded-placeholder copy of `createPdfPreview`
does satisfy the guarantee — for an existing source PDF with no pre-existing
preview file it returns a non-null preview whose file exists with non-zero
size, and it returns `null` when the source is missing; the other copy can
return `null` for a valid source when its bundled placeholder file is absent. -/
theorem c7_amended_preview_guarantee :
    (∀ (pdfPath : String) (w : World), existsAt w pdfPath = true →
      w.fs (previewPathOf pdfPath) = none →
      (createPdfPreviewV2 pdfPath w).1 = some (getAppUrl (previewPathOf pdfPath))
        ∧ 0 < sizeAt (createPdfPreviewV2 pdfPath w).2 (previewPathOf pdfPath))
    ∧ ∀ (pdfPath : String) (w : World), existsAt w pdfPath = false →
      createPdfPreviewV2 pdfPath w = (none, w) :=
  ⟨fun _ _ h1 h2 => createPdfPreviewV2_spec h1 h2,
   fun _ _ h => createPdfPreviewV2_missing h⟩

/-- Witness for the amended C7 at a concrete source PDF. -/
theorem c7_witness :
    (existsAt (worldWithFile "/userData/downloads/pdfs/a.pdf" 7)
        "/userData/downloads/pdfs/a.pdf" = true
      ∧ (worldWithFile "/userData/downloads/pdfs/a.pdf" 7).fs
          (previewPathOf "/userData/downloads/pdfs/a.pdf") = none
      ∧ (createPdfPreviewV2 "/userData/downloads/pdfs/a.pdf"
            (worldWithFile "/userData/downloads/pdfs/a.pdf" 7)).1
          = some (getAppUrl (previewPathOf "/userData/downloads/pdfs/a.pdf"))
        ∧ 0 < sizeAt (createPdfPreviewV2 "/userData/downloads/pdfs/a.pdf"
            (worldWithFile "/userData/downloads/pdfs/a.pdf" 7)).2
            (previewPathOf "/userData/downloads/pdfs/a.pdf"))
    ∧ (existsAt (worldWithNet []) "/userData/downloads/pdfs/a.pdf" = false
      ∧ createPdfPreviewV2 "/userData/downloads/pdfs/a.pdf" (worldWithNet [])
          = (none, worldWithNet [])) := by
  refine ⟨⟨by decide, by decide, ?_⟩, ⟨by decide, ?_⟩⟩
  · exact c7_amended_preview_guarantee.1 _ _ (by decide) (by decide)
  · exact c7_amended_preview_guarantee.2 _ _ (by decide)

/-- Claim C8 counterexample: the cookie-harvesting GET of the Drive view page
is issued by the pipeline with no timeout configured at all, so not every
request carries a 30–60 s timeout. -/
theorem c8_counterexample :
    viewPageReq "FID" ∈ (downloadWithDirectMethods "FID" "/userData/downloads/pdfs/a.pdf"
        (worldWithNet [])).2.log
    ∧ (viewPageReq "FID").timeoutMs = none := by decide

/-- Claim C8, amended: every request `downloadAsset` ever issues either
carries a timeout in the 30–60 s range or is one of the view-page
cookie-harvesting GETs, which set no timeout. -/
theorem c8_amended_timeouts :
    ∀ (cfg : Cfg) (url : String) (ty : AssetType) (nm : Option String) (w w' : World)
      (o : Option DlResult) (q : NetRequest),
      downloadAsset cfg url ty nm w = (o, w') → q ∈ w'.log →
      q ∈ w.log ∨ (∃ t, q.timeoutMs = some t ∧ 30000 ≤ t ∧ t ≤ 60000)
        ∨ ∃ fid, q = viewPageReq fid := by
  intro cfg url ty nm w w' o q h hq
  rcases downloadAsset_log h hq with hM | hM
  · exact Or.inl hM
  · rcases hM with hB | hV
    · exact Or.inr (Or.inl hB)
    · exact Or.inr (Or.inr hV)

/-- Witness for the amended C8: the one request of a concrete successful image
resolution satisfies the timeout discipline. -/
theorem c8_witness :
    directReq "https://example.com/pic.png" ∈ (downloadAsset ⟨false, false⟩
        "https://example.com/pic.png" .image (some "sku1")
        (worldWithNet [some ['x']])).2.log
    ∧ (directReq "https://example.com/pic.png" ∈ (worldWithNet [some ['x']]).log
        ∨ (∃ t, (directReq "https://example.com/pic.png").timeoutMs = some t
            ∧ 30000 ≤ t ∧ t ≤ 60000)
        ∨ ∃ fid, directReq "https://example.com/pic.png" = viewPageReq fid) := by
  have hq : directReq "https://example.com/pic.png" ∈ (downloadAsset ⟨false, false⟩
      "https://example.com/pic.png" .image (some "sku1")
      (worldWithNet [some ['x']])).2.log := by decide
  exact ⟨hq, c8_amended_timeouts ⟨false, false⟩ "https://example.com/pic.png" .image
    (some "sku1") (worldWithNet [some ['x']])
    (downloadAsset ⟨false, false⟩ "https://example.com/pic.png" .image (some "sku1")
      (worldWithNet [some ['x']])).2
    (downloadAsset ⟨false, false⟩ "https://example.com/pic.png" .image (some "sku1")
      (worldWithNet [some ['x']])).1
    (directReq "https://example.com/pic.png") rfl hq⟩

/-- Claim C9: whenever `downloadAsset` returns a non-null result, the file at
the returned local path exists with non-zero size; and when the target path
holds a zero-length file, `downloadAsset` deletes it and re-downloads instead
of reusing it. -/
theorem c9_downloaded_file_nonempty :
    (∀ (cfg : Cfg) (url : String) (ty : AssetType) (nm : Option String) (w w' : World)
        (r : DlResult), downloadAsset cfg url ty nm w = (some r, w') →
        ∃ k, w'.fs r.localPath = some k ∧ 0 < k)
    ∧ ∀ (cfg : Cfg) (url : String) (ty : AssetType) (nm : Option String) (w : World),
        url.isEmpty = false → w.fs (assetLocalPath url ty nm w) = some 0 →
        downloadAsset cfg url ty nm w
          = downloadAssetFresh cfg url ty (assetLocalPath url ty nm w)
              (assetAppUrl url ty nm w) (eraseF w (assetLocalPath url ty nm w)) := by
  constructor
  · intro cfg url ty nm w w' r h
    obtain ⟨hr, hs⟩ := downloadAsset_success h
    subst hr
    exact ⟨sizeAt w' (assetLocalPath url ty nm w), fs_eq_of_sizeAt_pos hs, hs⟩
  · intro cfg url ty nm w hu h0
    exact downloadAsset_zero_redownload hu h0

/-- Witness for C9: a concrete successful image resolution leaves a non-empty
file, and a zero-length cached file triggers the erase-and-redownload path. -/
theorem c9_witness :
    ((downloadAsset ⟨false, false⟩ "https://example.com/pic.png" .image (some "sku1")
        (worldWithNet [some ['x']])).1
      = some ⟨"app://images/sku1.png", "/userData/downloads/images/sku1.png"⟩
      ∧ ∃ k, (downloadAsset ⟨false, false⟩ "https://example.com/pic.png" .image
          (some "sku1") (worldWithNet [some ['x']])).2.fs
          (DlResult.mk "app://images/sku1.png" "/userData/downloads/images/sku1.png").localPath
          = some k ∧ 0 < k)
    ∧ ((worldWithFile "/userData/downloads/images/sku1.png" 0).fs
        (assetLocalPath "https://example.com/pic.png" .image (some "sku1")
          (worldWithFile "/userData/downloads/images/sku1.png" 0)) = some 0
      ∧ downloadAsset ⟨false, false⟩ "https://example.com/pic.png" .image (some "sku1")
          (worldWithFile "/userData/downloads/images/sku1.png" 0)
        = downloadAssetFresh ⟨false, false⟩ "https://example.com/pic.png" .image
            (assetLocalPath "https://example.com/pic.png" .image (some "sku1")
              (worldWithFile "/userData/downloads/images/sku1.png" 0))
            (assetAppUrl "https://example.com/pic.png" .image (some "sku1")
              (worldWithFile "/userData/downloads/images/sku1.png" 0))
            (eraseF (worldWithFile "/userData/downloads/images/sku1.png" 0)
              (assetLocalPath "https://example.com/pic.png" .image (some "sku1")
                (worldWithFile "/userData/downloads/images/sku1.png" 0)))) := by
  have h1 : (downloadAsset ⟨false, false⟩ "https://example.com/pic.png" .image (some "sku1")
      (worldWithNet [some ['x']])).1
      = some ⟨"app://images/sku1.png", "/userData/downloads/images/sku1.png"⟩ := by decide
  have he : downloadAsset ⟨false, false⟩ "https://example.com/pic.png" .image (some "sku1")
      (worldWithNet [some ['x']])
      = (some ⟨"app://images/sku1.png", "/userData/downloads/images/sku1.png"⟩,
        (downloadAsset ⟨false, false⟩ "https://example.com/pic.png" .image (some "sku1")
          (worldWithNet [some ['x']])).2) := by
    rw [← h1]
  refine ⟨⟨h1, ?_⟩, ⟨by decide, ?_⟩⟩
  · exact c9_downloaded_file_nonempty.1 _ _ _ _ _ _ _ he
  · exact c9_downloaded_file_nonempty.2 _ _ _ _ _ (by decide) (by decide)

/-- Claim C10: `downloadFile` takes the Drive-specific path exactly when
`extractFileId` yields a truthy ID and the URL contains `google.com`; in every
other case it runs the generic branch, which issues exactly one GET. -/
theorem c10_downloadFile_routing :
    ∀ (cfg : Cfg) (url fp : String) (w : World),
      ((jsTruthy (extractFileId url) && containsS url "google.com") = false →
        downloadFile cfg url fp w = genericDownload url fp w
          ∧ (downloadFile cfg url fp w).2.log = w.log ++ [genericGetReq url])
      ∧ ((jsTruthy (extractFileId url) && containsS url "google.com") = true →
        downloadFile cfg url fp w
          = driveDispatch cfg ((extractFileId url).getD "") fp w) := by
  intro cfg url fp w
  constructor
  · intro hcond
    have hgen : downloadFile cfg url fp w = genericDownload url fp w := by
      unfold downloadFile
      cases hf : extractFileId url with
      | none => rfl
      | some fid =>
        rw [hf] at hcond
        simp only [jsTruthy] at hcond
        simp only [hcond, Bool.false_eq_true, if_false]
    refine ⟨hgen, ?_⟩
    rw [hgen]
    exact genericDownload_logEq url fp w
  · intro hcond
    unfold downloadFile driveDispatch
    cases hf : extractFileId url with
    | none =>
      rw [hf] at hcond
      simp [jsTruthy] at hcond
    | some fid =>
      rw [hf] at hcond
      simp only [jsTruthy] at hcond
      simp only [Option.getD, hcond, if_true]

/-- Witness for C10: a URL carrying a 28-character ID-shaped token that
`extractFileId` does match, but with no `google.com`, still routes to the
single generic GET. -/
theorem c10_witness :
    extractFileId "https://example.com/abcdefghijklmnopqrstuvwxyzAB.png"
      = some "abcdefghijklmnopqrstuvwxyzAB"
    ∧ containsS "https://example.com/abcdefghijklmnopqrstuvwxyzAB.png" "google.com" = false
    ∧ downloadFile ⟨false, false⟩ "https://example.com/abcdefghijklmnopqrstuvwxyzAB.png"
        "/userData/downloads/images/x.png" (worldWithNet [none])
      = genericDownload "https://example.com/abcdefghijklmnopqrstuvwxyzAB.png"
          "/userData/downloads/images/x.png" (worldWithNet [none]) := by
  refine ⟨by decide, by decide, ?_⟩
  exact ((c10_downloadFile_routing ⟨false, false⟩
    "https://example.com/abcdefghijklmnopqrstuvwxyzAB.png"
    "/userData/downloads/images/x.png" (worldWithNet [none])).1 (by decide)).1

end HelloStickers
